import Mathlib

/-! Verification of rally-sync: clock synchronisation, rally timing, announcements,
countdown audio.

A shallow embedding of the timing core of the web client
(`web/src/components/RallyApp.jsx`, `web/src/audio/index.js`).

JavaScript numbers are modelled as rationals (`ℚ`): every finite double is a
rational.  On the millisecond values of the clock, rally and announcement code
(integers and halves of integers of ordinary magnitude) the double operations
used there (`+`, `-`, `/ 2`, comparisons) are exact and are written as the
operations of `ℚ`.  The audio module works in seconds (`/ 1000`, the literal
`0.02`), where results are not representable in general: there each operation
is the exact one followed by `roundDouble`, the IEEE 754 binary64 rounding to
nearest, ties to even.  A value for which `Number.isFinite` is false is
modelled by `none` in an `Option ℚ`.
-/

namespace RallySync

/-! ## Clock synchronisation (`setOffsetSample`, `handleTimeSyncResponse`) -/

/-- The constant `SYNC_SAMPLE_COUNT` of `RallyApp.jsx`. -/
def SYNC_SAMPLE_COUNT : ℕ := 6

/-- One entry of `syncSamplesRef.current`: the object `{ offsetMs, rttMs, atTs }`. -/
structure ClockSample where
  offsetMs : ℚ
  rttMs : ℚ
  atTs : ℚ
deriving DecidableEq

/-- The synchronisation state kept by the component: the ref `syncSamplesRef`,
the ref `offsetRef`, and the React states `timeOffsetMs`, `bestRttMs`, `lastSyncAt`. -/
structure SyncState where
  syncSamples : List ClockSample
  offsetRef : ℚ
  timeOffsetMs : ℚ
  bestRttMs : Option ℚ
  lastSyncAt : Option ℚ
deriving DecidableEq

/-- The values the component starts with: `useRef([])`, `useRef(0)`, `useState(0)`,
`useState(null)`, `useState(null)`. -/
def SyncState.initial : SyncState :=
  { syncSamples := [], offsetRef := 0, timeOffsetMs := 0, bestRttMs := none, lastSyncAt := none }

/-- The array call `xs.slice(-k)` for `k > 0`: the last `k` elements of `xs`
(all of `xs` when it has fewer). -/
def sliceLast {α : Type} (k : ℕ) (xs : List α) : List α :=
  xs.drop (xs.length - k)

/-- The reducer `(min, next) => (next.rttMs < min.rttMs ? next : min)`. -/
def pickMin (min next : ClockSample) : ClockSample :=
  if next.rttMs < min.rttMs then next else min

/-- The value `samples.reduce(pickMin, samples[0])`; `none` stands for the
`undefined` that an empty array would give. -/
def bestOf (samples : List ClockSample) : Option ClockSample :=
  match samples with
  | [] => none
  | s0 :: _ => some (samples.foldl pickMin s0)

/-- The function `setOffsetSample(offsetMs, rttMs, atTs)`. -/
def setOffsetSample (st : SyncState) (offsetMs rttMs atTs : ℚ) : SyncState :=
  let samples :=
    sliceLast (SYNC_SAMPLE_COUNT - 1) st.syncSamples ++ [{ offsetMs, rttMs, atTs }]
  match bestOf samples with
  | some best =>
      { syncSamples := samples
        offsetRef := best.offsetMs
        timeOffsetMs := best.offsetMs
        bestRttMs := some best.rttMs
        lastSyncAt := some atTs }
  | none => { st with syncSamples := samples }

/-- Recording a sequence of samples, oldest first, one `setOffsetSample` call each. -/
def recordAll (st : SyncState) (samples : List ClockSample) : SyncState :=
  samples.foldl (fun acc s => setOffsetSample acc s.offsetMs s.rttMs s.atTs) st

/-- The payload of a `TIME_SYNC_RESPONSE`: the fields `t0`, `t1`, `t2`, each
`none` when `Number.isFinite` rejects it. -/
structure SyncPayload where
  t0 : Option ℚ
  t1 : Option ℚ
  t2 : Option ℚ
deriving DecidableEq

/-- The function `handleTimeSyncResponse(payload)`; `t3` is the value read from
`Date.now()` and a missing payload is `none`. -/
def handleTimeSyncResponse (st : SyncState) (payload : Option SyncPayload) (t3 : ℚ) :
    SyncState :=
  match payload with
  | none => st
  | some p =>
    match p.t0, p.t1, p.t2 with
    | some t0, some t1, some t2 =>
        let rtt := max 0 ((t3 - t0) - (t2 - t1))
        let offset := ((t1 - t0) + (t2 - t3)) / 2
        setOffsetSample st offset rtt t3
    | _, _, _ => st

/-! ## Rally timing (`rallyComputed`) -/

/-- An entry of `state.players`: the object `{ id, name, marchMs }`. -/
structure Player where
  id : String
  name : String
  marchMs : ℚ
deriving DecidableEq

/-- The object `state.rally`.  The fields `rallyDurationMs` and `arrivalAt` are
`none` when `Number.isFinite` rejects them (absent, `null`, `NaN`, ...). -/
structure Rally where
  starterId : String
  launchAt : ℚ
  rallyDurationMs : Option ℚ
  arrivalAt : Option ℚ
deriving DecidableEq

/-- The React state `state`, initially `{ players: [], rally: null }`. -/
structure AppState where
  players : List Player
  rally : Option Rally
deriving DecidableEq

/-- The three strings `"JOIN"`, `"MARCH"`, `"LANDED"` that `phase` ranges over. -/
inductive Phase where
  | JOIN
  | MARCH
  | LANDED
deriving DecidableEq

/-- A row of `rallyComputed.rows`: the spread player `...p` and the derived fields. -/
structure Row where
  id : String
  name : String
  marchMs : ℚ
  startAt : ℚ
  rallyStartAt : ℚ
  diffMs : ℚ
  diffToRallyStartMs : ℚ
  diffFromLaunchMs : ℚ
  landInMs : ℚ
deriving DecidableEq

/-- The object returned by the `rallyComputed` memo. -/
structure RallyView where
  starter : Player
  launchAt : ℚ
  rallyStartAt : ℚ
  arrivalAt : ℚ
  rows : List Row
  joinRemainingMs : ℚ
  phase : Phase
deriving DecidableEq

/-- The callback given to `state.players.map` inside `rallyComputed`. -/
def mkRow (arrivalAt rallyDurationMs launchAt now : ℚ) (p : Player) : Row :=
  let startAt := arrivalAt - p.marchMs
  let playerRallyStartAt := startAt - rallyDurationMs
  let diffMs := startAt - now
  let diffToRallyStartMs := playerRallyStartAt - now
  let diffFromLaunchMs := startAt - launchAt
  let landInMs := arrivalAt - now
  { id := p.id
    name := p.name
    marchMs := p.marchMs
    startAt := startAt
    rallyStartAt := playerRallyStartAt
    diffMs := diffMs
    diffToRallyStartMs := diffToRallyStartMs
    diffFromLaunchMs := diffFromLaunchMs
    landInMs := landInMs }

/-- The order that the comparator `(a, b) => a.startAt - b.startAt` sorts by.
`Array.prototype.sort` is stable, and so is insertion sort with `≤`. -/
def byStartAt (a b : Row) : Prop := a.startAt ≤ b.startAt

instance : DecidableRel byStartAt := fun a b => inferInstanceAs (Decidable (a.startAt ≤ b.startAt))

/-- The chain `state.players.map(...).filter((r) => r.landInMs >= 0).sort(...)`. -/
def computeRows (players : List Player) (arrivalAt rallyDurationMs launchAt now : ℚ) :
    List Row :=
  List.insertionSort byStartAt
    (List.filter (fun r => decide (r.landInMs ≥ 0))
      (List.map (mkRow arrivalAt rallyDurationMs launchAt now) players))

/-- The `rallyComputed` memo as a function of its dependencies `state`, `now`, `delay`;
`none` is the `null` it returns. -/
def rallyComputed (state : AppState) (now delay : ℚ) : Option RallyView :=
  match state.rally with
  | none => none
  | some activeRally =>
    match state.players.find? (fun p => decide (p.id = activeRally.starterId)) with
    | none => none
    | some starter =>
      let launchAt := activeRally.launchAt
      let rallyDurationMs :=
        match activeRally.rallyDurationMs with
        | some d => d
        | none => delay * 60 * 1000
      let rallyStartAt := launchAt - rallyDurationMs
      let arrivalAt :=
        match activeRally.arrivalAt with
        | some a => a
        | none => launchAt + starter.marchMs
      let joinRemainingMs := launchAt - now
      let phase0 := if joinRemainingMs > 0 then Phase.JOIN else Phase.MARCH
      let phase := if arrivalAt ≤ now then Phase.LANDED else phase0
      let rows := computeRows state.players arrivalAt rallyDurationMs launchAt now
      some
        { starter := starter
          launchAt := launchAt
          rallyStartAt := rallyStartAt
          arrivalAt := arrivalAt
          rows := rows
          joinRemainingMs := joinRemainingMs
          phase := phase }

/-- The player a row was spread from: its fields `id`, `name`, `marchMs`. -/
def Row.player (r : Row) : Player :=
  { id := r.id, name := r.name, marchMs := r.marchMs }

/-- A roster of two players, `A` marching 60 s and `B` marching 30 s, with `A`
starting a rally of 300 s that launches at `T` and carries no `arrivalAt`. -/
def scenarioState (T : ℚ) (nameA nameB : String) : AppState :=
  { players := [{ id := "A", name := nameA, marchMs := 60000 },
                { id := "B", name := nameB, marchMs := 30000 }]
    rally := some { starterId := "A", launchAt := T, rallyDurationMs := some 300000,
                    arrivalAt := none } }

/-- The rows of `scenarioState` at a time `now` not after the arrival. -/
def scenarioRows (T now : ℚ) (nameA nameB : String) : List Row :=
  [{ id := "A", name := nameA, marchMs := 60000, startAt := T, rallyStartAt := T - 300000,
     diffMs := T - now, diffToRallyStartMs := T - 300000 - now, diffFromLaunchMs := 0,
     landInMs := T + 60000 - now },
   { id := "B", name := nameB, marchMs := 30000, startAt := T + 30000,
     rallyStartAt := T - 270000, diffMs := T + 30000 - now,
     diffToRallyStartMs := T - 270000 - now, diffFromLaunchMs := 30000,
     landInMs := T + 60000 - now }]

/-! ## Announcements (the effect that calls `callFor`) -/

/-- Which of the two template strings built the key: `rally:...` or `march:...`. -/
inductive CueKind where
  | rally
  | march
deriving DecidableEq

/-- The key string `rally:<id>:<targetTs>` or `march:<id>:<targetTs>`.  The prefix
holds no colon and the printed number holds none, so the string determines the
three parts and the key is kept as the triple. -/
structure AnnouncementKey where
  kind : CueKind
  id : String
  targetTs : ℚ
deriving DecidableEq

/-- What the announcement effect reads besides the view and `now`. -/
structure AnnounceSettings where
  ttsEnabled : Bool
  ttsRallyCalls : Bool
  ttsMarchCalls : Bool
  selectedIds : List String
  ttsVolume : ℚ
  beepGainFactor : ℚ
deriving DecidableEq

/-- One call `callFor(r.name, targetTs)`: it speaks the name and calls
`scheduleCountdownToTarget(targetTs, now, { gainFactor })`.  The key under which
the call was announced is kept with it. -/
structure Cue where
  key : AnnouncementKey
  playerName : String
  targetTs : ℚ
  nowTs : ℚ
  ttsVolume : ℚ
  gainFactor : ℚ
deriving DecidableEq

/-- The state threaded through the `for` loop of the effect: the set
`announcedRef.current` and the calls made so far, oldest first. -/
structure AnnounceAcc where
  announced : List AnnouncementKey
  cues : List Cue
deriving DecidableEq

/-- The constant `triggerMs` of the effect. -/
def triggerMs : ℚ := 5200

/-- The value `effectiveOnlySelected = selectedIds.length > 0`. -/
def effectiveOnlySelected (s : AnnounceSettings) : Bool :=
  decide (s.selectedIds.length > 0)

/-- The `if / else if / else` that picks `targetTs` and `key` for a row;
`none` is the `continue` of the last branch. -/
def targetFor (s : AnnounceSettings) (phase : Phase) (r : Row) :
    Option (ℚ × AnnouncementKey) :=
  if phase = Phase.JOIN ∧ s.ttsRallyCalls = true then
    some (r.rallyStartAt, { kind := CueKind.rally, id := r.id, targetTs := r.rallyStartAt })
  else if phase = Phase.MARCH ∧ s.ttsMarchCalls = true then
    some (r.startAt, { kind := CueKind.march, id := r.id, targetTs := r.startAt })
  else
    none

/-- One iteration of `for (const r of rallyComputed.rows)`. -/
def announceRow (s : AnnounceSettings) (phase : Phase) (now : ℚ)
    (acc : AnnounceAcc) (r : Row) : AnnounceAcc :=
  if effectiveOnlySelected s = true ∧ ¬ r.id ∈ s.selectedIds then acc
  else
    match targetFor s phase r with
    | none => acc
    | some (targetTs, key) =>
      if key ∈ acc.announced then acc
      else
        let msLeft := targetTs - now
        if msLeft ≤ triggerMs ∧ msLeft > 600 then
          { announced := key :: acc.announced
            cues := acc.cues ++
              [{ key := key
                 playerName := r.name
                 targetTs := targetTs
                 nowTs := now
                 ttsVolume := s.ttsVolume
                 gainFactor := s.beepGainFactor }] }
        else acc

/-- One run of the announcement effect on the set `announced`: the set it leaves
in `announcedRef.current` and the calls it made. -/
def announcementEffect (s : AnnounceSettings) (view : Option RallyView) (now : ℚ)
    (announced : List AnnouncementKey) : AnnounceAcc :=
  if s.ttsEnabled = false then { announced := announced, cues := [] }
  else
    match view with
    | none => { announced := announced, cues := [] }
    | some v => v.rows.foldl (announceRow s v.phase now) { announced := announced, cues := [] }

/-- One tick: what a run of the effect is given. -/
structure Tick where
  settings : AnnounceSettings
  view : Option RallyView
  now : ℚ
deriving DecidableEq

/-- A sequence of runs of the effect with no `endRally` in between: the set is
handed from one run to the next and the calls are collected in order. -/
def runTicks (announced : List AnnouncementKey) : List Tick → AnnounceAcc
  | [] => { announced := announced, cues := [] }
  | t :: ts =>
    let a := announcementEffect t.settings t.view t.now announced
    let rest := runTicks a.announced ts
    { announced := rest.announced, cues := a.cues ++ rest.cues }

/-- Settings with voice, rally calls and march calls on and nobody selected. -/
def scenarioSettings : AnnounceSettings :=
  { ttsEnabled := true
    ttsRallyCalls := true
    ttsMarchCalls := true
    selectedIds := []
    ttsVolume := 8 / 10
    beepGainFactor := 7 / 10 }

/-- A tick of the two-player scenario launched at 1000000: the view is the one
`rallyComputed` derives at `now`. -/
def scenarioTick (now : ℚ) : Tick :=
  { settings := scenarioSettings
    view := rallyComputed (scenarioState 1000000 "Ann" "Bob") now 5
    now := now }

/-! ## Double arithmetic -/

/-- The integer nearest to `x`, the even one of the two when `x` lies half way. -/
def roundHalfEven (x : ℚ) : ℤ :=
  if x - ⌊x⌋ < 1 / 2 then ⌊x⌋
  else if 1 / 2 < x - ⌊x⌋ then ⌊x⌋ + 1
  else if ⌊x⌋ % 2 = 0 then ⌊x⌋ else ⌊x⌋ + 1

/-- The binary exponent of the binade of `q`, not below the least exponent
`-1022` of a normal double (below it the spacing of doubles stays constant). -/
def doubleExp (q : ℚ) : ℤ :=
  max (Int.log 2 |q|) (-1022)

/-- The double nearest to `q`, ties to even: the rounding of IEEE 754 binary64,
a multiple of `2 ^ (doubleExp q - 52)`.  Overflow to an infinity (from `2 ^ 1024`
upwards) is not modelled. -/
def roundDouble (q : ℚ) : ℚ :=
  if q = 0 then 0
  else (roundHalfEven (q / 2 ^ (doubleExp q - 52)) : ℚ) * 2 ^ (doubleExp q - 52)

/-- The sum `a + b` of two doubles as the machine computes it. -/
def fadd (a b : ℚ) : ℚ := roundDouble (a + b)

/-- The difference `a - b` of two doubles as the machine computes it. -/
def fsub (a b : ℚ) : ℚ := roundDouble (a - b)

/-- The product `a * b` of two doubles as the machine computes it. -/
def fmul (a b : ℚ) : ℚ := roundDouble (a * b)

/-- The quotient `a / b` of two doubles, `b` not zero, as the machine computes it. -/
def fdiv (a b : ℚ) : ℚ := roundDouble (a / b)

/-! ## Countdown audio (`scheduleCountdownToTarget`) -/

/-- The numbers named by `COUNTDOWN_FILES = ["5", "4", "3", "2", "1"]`: each file
name is kept as the value `Number(n)` that the code reads back from it. -/
def COUNTDOWN_FILES : List ℕ := [5, 4, 3, 2, 1]

/-- The constant `GO_GAIN_FACTOR = 0.6`, the double that the literal denotes. -/
def GO_GAIN_FACTOR : ℚ := roundDouble (6 / 10)

/-- A decoded asset: the buffer of `/countdown/<n>.ogg` or of `/countdown/AirHorn.ogg`. -/
inductive AudioBuffer where
  | countdown (n : ℕ)
  | go
deriving DecidableEq

/-- The module variable `countdownBuffers` when it is not `null`. -/
structure CountdownBuffers where
  numbers : List AudioBuffer
  go : AudioBuffer
deriving DecidableEq

/-- The value the `.then` handler of `preloadCountdownSounds` stores after a
successful load. -/
def loadedBuffers : CountdownBuffers :=
  { numbers := COUNTDOWN_FILES.map AudioBuffer.countdown, go := AudioBuffer.go }

/-- One call `scheduleBuffer(buffer, timeSec, { gain })` that reached `source.start(timeSec)`. -/
structure ScheduledBuffer where
  buffer : Option AudioBuffer
  timeSec : ℚ
  gain : ℚ
deriving DecidableEq

/-- What the audio module sees: `currentTime` of the context that `ensureAudio`
returns (`none` when the platform has no `AudioContext`) and `countdownBuffers`. -/
structure AudioEnv where
  currentTime : Option ℚ
  countdownBuffers : Option CountdownBuffers
deriving DecidableEq

/-- The function `scheduleCountdownToTarget(targetTs, nowTs, { gainFactor })`: the
list of buffers it schedules, in call order.  Every arithmetic operation is the
double operation; the literal `0.02` is the double nearest to `2 / 100`, and
`Number(n)` of a file name is the integer it spells. -/
def scheduleCountdownToTarget (env : AudioEnv) (targetTs nowTs gainFactor : ℚ) :
    List ScheduledBuffer :=
  match env.currentTime with
  | none => []
  | some currentTime =>
    match env.countdownBuffers with
    | none => []
    | some countdownBuffers =>
      let secUntilTarget := max 0 (fdiv (fsub targetTs nowTs) 1000)
      let base := fadd currentTime secUntilTarget
      let startTime := fadd currentTime (roundDouble (2 / 100))
      let numbered :=
        COUNTDOWN_FILES.enum.filterMap (fun (i, n) =>
          let timeSec := fsub base (n : ℚ)
          if timeSec ≥ startTime then
            some { buffer := countdownBuffers.numbers[i]?, timeSec := timeSec, gain := gainFactor }
          else none)
      let go :=
        if base ≥ startTime then
          [{ buffer := some countdownBuffers.go, timeSec := base,
             gain := fmul gainFactor GO_GAIN_FACTOR : ScheduledBuffer }]
        else []
      numbered ++ go

/-! ## Further definitions: corrected clock, fallback tones, preload -/

/-- The value the tick hands to `setNow`: `Date.now() + offsetRef.current`. -/
def correctedNow (st : SyncState) (localNow : ℚ) : ℚ :=
  localNow + st.offsetRef

/-- The reading "`bestOffsetMs`, `bestRttMs` and `lastSyncAt` are the fields of one
minimum-RTT sample of the window". -/
def bestFieldsOfOneSample (st : SyncState) : Prop :=
  ∃ b ∈ st.syncSamples, (∀ x ∈ st.syncSamples, b.rttMs ≤ x.rttMs) ∧
    st.offsetRef = b.offsetMs ∧ st.bestRttMs = some b.rttMs ∧ st.lastSyncAt = some b.atTs

/-- The reading "recording `s` only improves the selection or is ignored by it":
`bestRttMs` does not grow from `st` to `st'`, and when the round trip of `s` is
not lower than the previous best, the best offset stays. -/
def onlyImprovesOrIgnored (st st' : SyncState) (s : ClockSample) : Prop :=
  (∀ r r', st.bestRttMs = some r → st'.bestRttMs = some r' → r' ≤ r) ∧
    (∀ r, st.bestRttMs = some r → r ≤ s.rttMs →
      st'.offsetRef = st.offsetRef ∧ st'.timeOffsetMs = st.timeOffsetMs)

/-- One call `beepAt(timeSec, { freq, duration, gain })` that reached `osc.start(timeSec)`. -/
structure Tone where
  timeSec : ℚ
  freq : ℚ
  duration : ℚ
  gain : ℚ
deriving DecidableEq

/-- The function `scheduleBeepsToTarget(targetTs, nowTs, { gainFactor })` with its
defaults `spacingSec = 0.75`, `leadSec = 5 * 0.75`, `freqCount = 720`,
`freqGo = 1100`, `gain = 0.065`: the tones it hands to `beepAt`, in call order,
in double arithmetic.  The module defines it and never calls it. -/
def scheduleBeepsToTarget (env : AudioEnv) (targetTs nowTs gainFactor : ℚ) : List Tone :=
  match env.currentTime with
  | none => []
  | some currentTime =>
    let spacingSec : ℚ := roundDouble (75 / 100)
    let leadSec : ℚ := fmul 5 (roundDouble (75 / 100))
    let gain : ℚ := roundDouble (65 / 1000)
    let secUntilTarget := max 0 (fdiv (fsub targetTs nowTs) 1000)
    let base := fadd currentTime secUntilTarget
    let first := fsub base leadSec
    let startTime := max (fadd currentTime (roundDouble (2 / 100))) first
    let goTime := max (fadd currentTime (roundDouble (2 / 100))) base
    let times :=
      [5, 4, 3, 2, 1].map (fun i : ℕ => fsub goTime (fmul (fsub 6 (i : ℚ)) spacingSec))
    let filtered :=
      List.insertionSort (fun a b : ℚ => a ≤ b)
        (times.filter
          (fun t => decide (t ≥ startTime ∧ t ≤ fsub goTime (roundDouble (1 / 100)))))
    filtered.map
        (fun t => { timeSec := t, freq := 720, duration := roundDouble (85 / 1000),
                    gain := fmul gain gainFactor }) ++
      [{ timeSec := goTime, freq := 1100, duration := roundDouble (12 / 100),
         gain := fmul (fmul gain (roundDouble (11 / 10))) gainFactor }]

/-- A sound handed to the audio context, by `scheduleBuffer` or by `beepAt`. -/
inductive AudioCall where
  | buffer (b : ScheduledBuffer)
  | tone (t : Tone)
deriving DecidableEq

/-- Every sound one call of `scheduleCountdownToTarget` hands to the audio context.
Its body reaches the context through `scheduleBuffer` only: it holds no call of
`beepAt` and none of `scheduleBeepsToTarget`. -/
def countdownCalls (env : AudioEnv) (targetTs nowTs gainFactor : ℚ) : List AudioCall :=
  (scheduleCountdownToTarget env targetTs nowTs gainFactor).map AudioCall.buffer

/-- How the fetch and decode of the six files ends: all decoded, or a rejection. -/
inductive LoadOutcome where
  | decoded
  | rejected
deriving DecidableEq

/-- The audio module: the context and buffers of `AudioEnv`, and whether
`countdownLoadPromise` has been set. -/
structure AudioModule where
  env : AudioEnv
  loadStarted : Bool
deriving DecidableEq

/-- The call `preloadCountdownSounds()`, followed until its promise settles with
`outcome`: the `.then` handler stores the buffers, the `.catch` handler stores
`null`.  A call that finds buffers or a promise returns without loading. -/
def preloadCountdownSounds (outcome : LoadOutcome) (m : AudioModule) : AudioModule :=
  if m.env.countdownBuffers.isSome = true ∨ m.loadStarted = true then m
  else
    match m.env.currentTime with
    | none => m
    | some _ =>
      match outcome with
      | LoadOutcome.decoded =>
          { env := { m.env with countdownBuffers := some loadedBuffers }, loadStarted := true }
      | LoadOutcome.rejected =>
          { env := { m.env with countdownBuffers := none }, loadStarted := true }

/-- A sequence of calls of `preloadCountdownSounds()`, each followed until it
settles with the outcome listed for it. -/
def preloadAll (m : AudioModule) (outcomes : List LoadOutcome) : AudioModule :=
  outcomes.foldl (fun acc o => preloadCountdownSounds o acc) m

/-- A module as it is before any preload, with a context whose clock reads `t`. -/
def freshModule (t : ℚ) : AudioModule :=
  { env := { currentTime := some t, countdownBuffers := none }, loadStarted := false }

/-- Settings as `scenarioSettings`, with the id `"Z"` of no roster player selected. -/
def staleSelectionSettings : AnnounceSettings :=
  { scenarioSettings with selectedIds := ["Z"] }

/-! ## Lemmas on the sample window -/

theorem sliceLast_length_le {α : Type} (k : ℕ) (xs : List α) :
    (sliceLast k xs).length ≤ k := by
  unfold sliceLast
  rw [List.length_drop]
  omega

theorem sliceLast_append_singleton {α : Type} (k : ℕ) (xs : List α) (x : α) :
    sliceLast (k + 1) (xs ++ [x]) = sliceLast k xs ++ [x] := by
  unfold sliceLast
  have h : (xs ++ [x]).length - (k + 1) = xs.length - k := by
    simp
  rw [h, List.drop_append_of_le_length (Nat.sub_le _ _)]

theorem sliceLast_sliceLast {α : Type} (j k : ℕ) (h : j ≤ k) (xs : List α) :
    sliceLast j (sliceLast k xs) = sliceLast j xs := by
  unfold sliceLast
  rw [List.drop_drop, List.length_drop]
  congr 1
  omega

theorem foldl_pickMin_spec (l : List ClockSample) (init : ClockSample) :
    (l.foldl pickMin init = init ∨ l.foldl pickMin init ∈ l) ∧
      (l.foldl pickMin init).rttMs ≤ init.rttMs ∧
      ∀ s ∈ l, (l.foldl pickMin init).rttMs ≤ s.rttMs := by
  induction l generalizing init with
  | nil => simp
  | cons a t ih =>
    simp only [List.foldl_cons]
    obtain ⟨h1, h2, h3⟩ := ih (pickMin init a)
    have hle : (pickMin init a).rttMs ≤ init.rttMs ∧ (pickMin init a).rttMs ≤ a.rttMs := by
      unfold pickMin
      split_ifs with hc
      · exact ⟨le_of_lt hc, le_refl _⟩
      · exact ⟨le_refl _, not_lt.mp hc⟩
    have hpick : pickMin init a = init ∨ pickMin init a = a := by
      unfold pickMin
      split_ifs
      · exact Or.inr rfl
      · exact Or.inl rfl
    refine ⟨?_, le_trans h2 hle.1, ?_⟩
    · rcases h1 with h1 | h1
      · rcases hpick with hp | hp
        · exact Or.inl (h1.trans hp)
        · exact Or.inr (by rw [h1, hp]; exact List.mem_cons_self _ _)
      · exact Or.inr (List.mem_cons_of_mem _ h1)
    · intro s hs
      rcases List.mem_cons.mp hs with rfl | hs
      · exact le_trans h2 hle.2
      · exact h3 s hs

theorem bestOf_spec (samples : List ClockSample) (hne : samples ≠ []) :
    ∃ b, bestOf samples = some b ∧ b ∈ samples ∧ ∀ s ∈ samples, b.rttMs ≤ s.rttMs := by
  cases samples with
  | nil => exact absurd rfl hne
  | cons s0 t =>
    obtain ⟨h1, _, h3⟩ := foldl_pickMin_spec (s0 :: t) s0
    refine ⟨(s0 :: t).foldl pickMin s0, rfl, ?_, h3⟩
    rcases h1 with h1 | h1
    · rw [h1]; exact List.mem_cons_self _ _
    · exact h1

theorem setOffsetSample_spec (st : SyncState) (o r a : ℚ) :
    (setOffsetSample st o r a).syncSamples =
        sliceLast (SYNC_SAMPLE_COUNT - 1) st.syncSamples ++ [{ offsetMs := o, rttMs := r, atTs := a }] ∧
      ∃ b ∈ (setOffsetSample st o r a).syncSamples,
        (setOffsetSample st o r a).offsetRef = b.offsetMs ∧
        (setOffsetSample st o r a).timeOffsetMs = b.offsetMs ∧
        (setOffsetSample st o r a).bestRttMs = some b.rttMs ∧
        ∀ s ∈ (setOffsetSample st o r a).syncSamples, b.rttMs ≤ s.rttMs := by
  obtain ⟨b, hb, hmem, hmin⟩ :=
    bestOf_spec (sliceLast (SYNC_SAMPLE_COUNT - 1) st.syncSamples ++
      [{ offsetMs := o, rttMs := r, atTs := a }]) (by simp)
  have hst : setOffsetSample st o r a =
      { syncSamples := sliceLast (SYNC_SAMPLE_COUNT - 1) st.syncSamples ++
          [{ offsetMs := o, rttMs := r, atTs := a }]
        offsetRef := b.offsetMs
        timeOffsetMs := b.offsetMs
        bestRttMs := some b.rttMs
        lastSyncAt := some a } := by
    simp only [setOffsetSample, hb]
  rw [hst]
  exact ⟨rfl, b, hmem, rfl, rfl, rfl, hmin⟩

theorem recordAll_append_singleton (st : SyncState) (pre : List ClockSample) (s : ClockSample) :
    recordAll st (pre ++ [s]) = setOffsetSample (recordAll st pre) s.offsetMs s.rttMs s.atTs := by
  simp [recordAll, List.foldl_append]

theorem recordAll_window (hist : List ClockSample) :
    (recordAll SyncState.initial hist).syncSamples = sliceLast SYNC_SAMPLE_COUNT hist := by
  induction hist using List.reverseRecOn with
  | nil => rfl
  | append_singleton pre s ih =>
    rw [recordAll_append_singleton, (setOffsetSample_spec _ _ _ _).1, ih]
    rw [sliceLast_sliceLast _ _ (by decide)]
    exact (sliceLast_append_singleton 5 pre s).symm

/-! ## Clock synchronisation: theorems -/

/-- C1: after each insertion of a sequence of samples recorded through
`setOffsetSample` from the initial state, the window holds the at most 6 most
recently inserted samples, and the stored best offset (`offsetRef` and
`timeOffsetMs`) is the `offsetMs` of a sample of that window whose `rttMs` is
minimal in it. -/
theorem bestOffset_is_min_rtt_of_last_six (pre : List ClockSample) (s : ClockSample) :
    (recordAll SyncState.initial (pre ++ [s])).syncSamples = sliceLast 6 (pre ++ [s]) ∧
      (sliceLast 6 (pre ++ [s])).length ≤ 6 ∧
      ∃ b ∈ sliceLast 6 (pre ++ [s]),
        (recordAll SyncState.initial (pre ++ [s])).offsetRef = b.offsetMs ∧
        (recordAll SyncState.initial (pre ++ [s])).timeOffsetMs = b.offsetMs ∧
        ∀ x ∈ sliceLast 6 (pre ++ [s]), b.rttMs ≤ x.rttMs := by
  have hw := recordAll_window (pre ++ [s])
  refine ⟨hw, sliceLast_length_le _ _, ?_⟩
  have hspec := (setOffsetSample_spec (recordAll SyncState.initial pre) s.offsetMs s.rttMs s.atTs).2
  rw [← recordAll_append_singleton, hw] at hspec
  obtain ⟨b, hb, h1, h2, _, h4⟩ := hspec
  exact ⟨b, hb, h1, h2, h4⟩

/-- C1, a run: seven samples are recorded; the first has the lowest round trip
but has left the window, so the best offset is that of the lowest round trip
among the last six. -/
theorem bestOffset_is_min_rtt_of_last_six_witness :
    (recordAll SyncState.initial
        ([⟨10, 1, 100⟩, ⟨20, 9, 200⟩, ⟨30, 8, 300⟩, ⟨40, 7, 400⟩, ⟨50, 3, 500⟩,
          ⟨60, 6, 600⟩] ++ [⟨70, 5, 700⟩])).syncSamples =
        sliceLast 6 ([⟨10, 1, 100⟩, ⟨20, 9, 200⟩, ⟨30, 8, 300⟩, ⟨40, 7, 400⟩, ⟨50, 3, 500⟩,
          ⟨60, 6, 600⟩] ++ [⟨70, 5, 700⟩]) ∧
      (recordAll SyncState.initial
        ([⟨10, 1, 100⟩, ⟨20, 9, 200⟩, ⟨30, 8, 300⟩, ⟨40, 7, 400⟩, ⟨50, 3, 500⟩,
          ⟨60, 6, 600⟩] ++ [⟨70, 5, 700⟩])).offsetRef = 50 :=
  ⟨(bestOffset_is_min_rtt_of_last_six
      [⟨10, 1, 100⟩, ⟨20, 9, 200⟩, ⟨30, 8, 300⟩, ⟨40, 7, 400⟩, ⟨50, 3, 500⟩, ⟨60, 6, 600⟩]
      ⟨70, 5, 700⟩).1,
    by norm_num [recordAll, setOffsetSample, bestOf, pickMin, sliceLast, SYNC_SAMPLE_COUNT,
      SyncState.initial]⟩

/-- C5: for finite `t0`, `t1`, `t2` and receive time `t3`, `handleTimeSyncResponse`
records through `setOffsetSample` the sample with
`rtt = max(0, (t3 - t0) - (t2 - t1))`, `offset = ((t1 - t0) + (t2 - t3)) / 2` and
`atTs = t3`; it becomes the newest entry of the window.  For `t0 = 1000`,
`t1 = 1050`, `t2 = 1060`, `t3 = 1120` the sample has `rtt = 110` and `offset = -5`. -/
theorem handleTimeSyncResponse_records_sample :
    (∀ (st : SyncState) (t0 t1 t2 t3 : ℚ),
      handleTimeSyncResponse st (some ⟨some t0, some t1, some t2⟩) t3 =
          setOffsetSample st (((t1 - t0) + (t2 - t3)) / 2) (max 0 ((t3 - t0) - (t2 - t1))) t3 ∧
        (handleTimeSyncResponse st (some ⟨some t0, some t1, some t2⟩) t3).syncSamples.getLast? =
          some { offsetMs := ((t1 - t0) + (t2 - t3)) / 2
                 rttMs := max 0 ((t3 - t0) - (t2 - t1))
                 atTs := t3 }) ∧
      (∀ st : SyncState,
        (handleTimeSyncResponse st (some ⟨some 1000, some 1050, some 1060⟩) 1120).syncSamples.getLast? =
          some { offsetMs := -5, rttMs := 110, atTs := 1120 }) ∧
      handleTimeSyncResponse SyncState.initial (some ⟨some 1000, some 1050, some 1060⟩) 1120 =
        { syncSamples := [{ offsetMs := -5, rttMs := 110, atTs := 1120 }]
          offsetRef := -5
          timeOffsetMs := -5
          bestRttMs := some 110
          lastSyncAt := some 1120 } := by
  have hgen : ∀ (st : SyncState) (t0 t1 t2 t3 : ℚ),
      handleTimeSyncResponse st (some ⟨some t0, some t1, some t2⟩) t3 =
          setOffsetSample st (((t1 - t0) + (t2 - t3)) / 2) (max 0 ((t3 - t0) - (t2 - t1))) t3 ∧
        (handleTimeSyncResponse st (some ⟨some t0, some t1, some t2⟩) t3).syncSamples.getLast? =
          some { offsetMs := ((t1 - t0) + (t2 - t3)) / 2
                 rttMs := max 0 ((t3 - t0) - (t2 - t1))
                 atTs := t3 } := by
    intro st t0 t1 t2 t3
    have h : handleTimeSyncResponse st (some ⟨some t0, some t1, some t2⟩) t3 =
        setOffsetSample st (((t1 - t0) + (t2 - t3)) / 2) (max 0 ((t3 - t0) - (t2 - t1))) t3 := rfl
    refine ⟨h, ?_⟩
    rw [h, (setOffsetSample_spec _ _ _ _).1]
    simp
  refine ⟨hgen, ?_, ?_⟩
  · intro st
    rw [(hgen st 1000 1050 1060 1120).2]
    norm_num
  · norm_num [handleTimeSyncResponse, setOffsetSample, bestOf, pickMin, sliceLast,
      SYNC_SAMPLE_COUNT, SyncState.initial]

/-! ## Rally timing: lemmas -/

/-- Every field of a view that `rallyComputed` returns, read off the rally and the
starter it was computed from. -/
theorem rallyComputed_inv {state : AppState} {now delay : ℚ} {view : RallyView}
    (h : rallyComputed state now delay = some view) :
    ∃ rally starter,
      state.rally = some rally ∧
      state.players.find? (fun p => decide (p.id = rally.starterId)) = some starter ∧
      view.starter = starter ∧
      view.launchAt = rally.launchAt ∧
      view.arrivalAt = rally.arrivalAt.getD (rally.launchAt + starter.marchMs) ∧
      view.rallyStartAt = rally.launchAt - rally.rallyDurationMs.getD (delay * 60 * 1000) ∧
      view.joinRemainingMs = rally.launchAt - now ∧
      view.phase = (if view.arrivalAt ≤ now then Phase.LANDED
        else if rally.launchAt - now > 0 then Phase.JOIN else Phase.MARCH) ∧
      view.rows = computeRows state.players view.arrivalAt
        (rally.rallyDurationMs.getD (delay * 60 * 1000)) rally.launchAt now := by
  unfold rallyComputed at h
  cases hr : state.rally with
  | none => simp [hr] at h
  | some rally =>
    cases hs : state.players.find? (fun p => decide (p.id = rally.starterId)) with
    | none => simp [hr, hs] at h
    | some starter =>
      simp only [hr, hs, Option.some.injEq] at h
      subst h
      refine ⟨rally, starter, rfl, hs, rfl, rfl, ?_, ?_, rfl, ?_, ?_⟩
      · cases rally.arrivalAt <;> rfl
      · cases rally.rallyDurationMs <;> rfl
      · cases rally.arrivalAt <;> rfl
      · cases rally.arrivalAt <;> cases rally.rallyDurationMs <;> rfl

theorem mem_computeRows {players : List Player} {arrivalAt dur launchAt now : ℚ} {r : Row} :
    r ∈ computeRows players arrivalAt dur launchAt now ↔
      0 ≤ arrivalAt - now ∧ ∃ p ∈ players, mkRow arrivalAt dur launchAt now p = r := by
  unfold computeRows
  rw [List.mem_insertionSort, List.mem_filter, List.mem_map]
  constructor
  · rintro ⟨⟨p, hp, rfl⟩, hl⟩
    exact ⟨by simpa [mkRow] using hl, p, hp, rfl⟩
  · rintro ⟨h0, p, hp, rfl⟩
    exact ⟨⟨p, hp, rfl⟩, by simpa [mkRow] using h0⟩

theorem computeRows_of_landed {players : List Player} {arrivalAt dur launchAt now : ℚ}
    (h : arrivalAt - now < 0) : computeRows players arrivalAt dur launchAt now = [] := by
  apply List.eq_nil_iff_forall_not_mem.mpr
  intro r hr
  have := (mem_computeRows.mp hr).1
  linarith

theorem computeRows_perm {players : List Player} {arrivalAt dur launchAt now : ℚ}
    (h : 0 ≤ arrivalAt - now) :
    (computeRows players arrivalAt dur launchAt now).Perm
      (players.map (mkRow arrivalAt dur launchAt now)) := by
  unfold computeRows
  refine (List.perm_insertionSort _ _).trans ?_
  rw [List.filter_eq_self.mpr]
  intro r hr
  obtain ⟨p, _, rfl⟩ := List.mem_map.mp hr
  simpa [mkRow] using h

theorem computeRows_sorted (players : List Player) (arrivalAt dur launchAt now : ℚ) :
    (computeRows players arrivalAt dur launchAt now).Sorted byStartAt := by
  haveI : IsTotal Row byStartAt := ⟨fun a b => le_total a.startAt b.startAt⟩
  haveI : IsTrans Row byStartAt :=
    ⟨fun a b c (hab : a.startAt ≤ b.startAt) (hbc : b.startAt ≤ c.startAt) =>
      (le_trans hab hbc : a.startAt ≤ c.startAt)⟩
  exact List.sorted_insertionSort byStartAt _

theorem player_mkRow (arrivalAt dur launchAt now : ℚ) (p : Player) :
    (mkRow arrivalAt dur launchAt now p).player = p := rfl

/-! ## Rally timing: theorems -/

/-- C2: simultaneity.  In every derived view each row satisfies
`row.startAt + row.marchMs = view.arrivalAt` exactly, whatever the march
durations of the participants are. -/
theorem simultaneity (state : AppState) (now delay : ℚ) (view : RallyView)
    (h : rallyComputed state now delay = some view) :
    ∀ r ∈ view.rows, r.startAt + r.marchMs = view.arrivalAt := by
  obtain ⟨rally, starter, -, -, -, -, -, -, -, -, hrows⟩ := rallyComputed_inv h
  intro r hr
  rw [hrows] at hr
  obtain ⟨-, p, -, rfl⟩ := mem_computeRows.mp hr
  simp [mkRow]

/-- C3: the phase of a derived view is `LANDED` exactly when `arrivalAt ≤ now`,
whatever the order of `launchAt` and `now`; otherwise it is `JOIN` when
`launchAt > now` and `MARCH` when `launchAt ≤ now`. -/
theorem phase_selection (state : AppState) (now delay : ℚ) (view : RallyView)
    (h : rallyComputed state now delay = some view) :
    (view.phase = Phase.LANDED ↔ view.arrivalAt ≤ now) ∧
      (view.phase = Phase.JOIN ↔ now < view.arrivalAt ∧ view.launchAt > now) ∧
      (view.phase = Phase.MARCH ↔ now < view.arrivalAt ∧ view.launchAt ≤ now) := by
  obtain ⟨rally, starter, -, -, -, hl, -, -, -, hp, -⟩ := rallyComputed_inv h
  rw [hp, hl]
  by_cases ha : view.arrivalAt ≤ now
  · simp [ha]
  · by_cases hj : rally.launchAt - now > 0
    · have : now < rally.launchAt := by linarith
      simp [ha, hj, this, lt_of_not_ge ha]
    · have : rally.launchAt ≤ now := by linarith
      simp [ha, hj, this, lt_of_not_ge ha]

theorem scenario_computeRows (T now : ℚ) (nameA nameB : String) (h : now ≤ T + 60000) :
    computeRows (scenarioState T nameA nameB).players (T + 60000) 300000 T now =
      scenarioRows T now nameA nameB := by
  have h0 : (0 : ℚ) ≤ T + 60000 - now := by linarith
  simp only [computeRows, scenarioState, scenarioRows, List.map, mkRow, List.filter, ge_iff_le,
    h0, decide_True, List.insertionSort, List.orderedInsert, byStartAt]
  have h1 : T + 60000 - 60000 ≤ T + 60000 - 30000 := by linarith
  rw [if_pos h1]
  simp only [List.cons.injEq, Row.mk.injEq, and_true, true_and]
  refine ⟨⟨?_, ?_, ?_, ?_, ?_⟩, ?_, ?_, ?_, ?_, ?_⟩ <;> ring

theorem scenario_view (T now delay : ℚ) (nameA nameB : String) :
    rallyComputed (scenarioState T nameA nameB) now delay =
      some
        { starter := { id := "A", name := nameA, marchMs := 60000 }
          launchAt := T
          rallyStartAt := T - 300000
          arrivalAt := T + 60000
          rows := computeRows (scenarioState T nameA nameB).players (T + 60000) 300000 T now
          joinRemainingMs := T - now
          phase := if T + 60000 ≤ now then Phase.LANDED
            else if T - now > 0 then Phase.JOIN else Phase.MARCH } := by
  simp [rallyComputed, scenarioState]

/-- C2, a run: in the two-player scenario at launch time both rows are present
and each ends its march at the arrival instant. -/
theorem simultaneity_witness :
    rallyComputed (scenarioState 1000000 "Ann" "Bob") 1000000 5 =
        some
          { starter := { id := "A", name := "Ann", marchMs := 60000 }
            launchAt := 1000000
            rallyStartAt := 1000000 - 300000
            arrivalAt := 1000000 + 60000
            rows := scenarioRows 1000000 1000000 "Ann" "Bob"
            joinRemainingMs := 1000000 - 1000000
            phase := Phase.MARCH } ∧
      ∀ r ∈ scenarioRows 1000000 1000000 "Ann" "Bob", r.startAt + r.marchMs = 1000000 + 60000 :=
  have h : rallyComputed (scenarioState 1000000 "Ann" "Bob") 1000000 5 =
      some
        { starter := { id := "A", name := "Ann", marchMs := 60000 }
          launchAt := 1000000
          rallyStartAt := 1000000 - 300000
          arrivalAt := 1000000 + 60000
          rows := scenarioRows 1000000 1000000 "Ann" "Bob"
          joinRemainingMs := 1000000 - 1000000
          phase := Phase.MARCH } := by
    rw [scenario_view, scenario_computeRows _ _ _ _ (by norm_num)]
    norm_num
  ⟨h, simultaneity _ _ _ _ h⟩

/-- C3, a run: one minute after the arrival the view of the two-player scenario
is `LANDED`, although `launchAt ≤ now` alone would give `MARCH`. -/
theorem phase_selection_witness :
    rallyComputed (scenarioState 1000000 "Ann" "Bob") 1120000 5 =
        some
          { starter := { id := "A", name := "Ann", marchMs := 60000 }
            launchAt := 1000000
            rallyStartAt := 1000000 - 300000
            arrivalAt := 1000000 + 60000
            rows := []
            joinRemainingMs := 1000000 - 1120000
            phase := Phase.LANDED } ∧
      ((Phase.LANDED = Phase.LANDED ↔ (1000000 + 60000 : ℚ) ≤ 1120000) ∧
        (Phase.LANDED = Phase.JOIN ↔ (1120000 : ℚ) < 1000000 + 60000 ∧ (1000000 : ℚ) > 1120000) ∧
        (Phase.LANDED = Phase.MARCH ↔
          (1120000 : ℚ) < 1000000 + 60000 ∧ (1000000 : ℚ) ≤ 1120000)) :=
  have h : rallyComputed (scenarioState 1000000 "Ann" "Bob") 1120000 5 =
      some
        { starter := { id := "A", name := "Ann", marchMs := 60000 }
          launchAt := 1000000
          rallyStartAt := 1000000 - 300000
          arrivalAt := 1000000 + 60000
          rows := []
          joinRemainingMs := 1000000 - 1120000
          phase := Phase.LANDED } := by
    rw [scenario_view, computeRows_of_landed (by norm_num)]
    norm_num
  ⟨h, phase_selection _ _ _ _ h⟩

/-- C4: in a derived view `arrivalAt` is the descriptor's `arrivalAt` when it is
present and `launchAt + starter.marchMs` otherwise, and every row has
`startAt = arrivalAt - marchMs` and `rallyStartAt = startAt - rallyDurationMs`
(the descriptor's duration, or `delay * 60 * 1000` when it has none).  In the
scenario with roster `[A: 60000, B: 30000]`, starter `A`, `rallyDurationMs = 300000`,
`launchAt = T` and no explicit `arrivalAt`, a view exists at every `now`, its
`arrivalAt` is `T + 60000`, a row of `B` has `startAt = T + 30000` and
`rallyStartAt = T - 270000`, and until the arrival the rows are those of `A` and `B`. -/
theorem arrival_and_row_instants :
    (∀ (state : AppState) (now delay : ℚ) (view : RallyView) (rally : Rally) (starter : Player),
      state.rally = some rally →
      state.players.find? (fun p => decide (p.id = rally.starterId)) = some starter →
      rallyComputed state now delay = some view →
        view.arrivalAt =
            (match rally.arrivalAt with
              | some a => a
              | none => rally.launchAt + starter.marchMs) ∧
          ∀ r ∈ view.rows,
            r.startAt = view.arrivalAt - r.marchMs ∧
              r.rallyStartAt = r.startAt -
                (match rally.rallyDurationMs with
                  | some d => d
                  | none => delay * 60 * 1000)) ∧
      (∀ (T now delay : ℚ) (nameA nameB : String),
        ∃ view, rallyComputed (scenarioState T nameA nameB) now delay = some view ∧
          view.arrivalAt = T + 60000 ∧
          (∀ r ∈ view.rows, r.id = "B" → r.startAt = T + 30000 ∧ r.rallyStartAt = T - 270000) ∧
          (now ≤ T + 60000 → view.rows = scenarioRows T now nameA nameB)) := by
  constructor
  · intro state now delay view rally starter hr hs h
    obtain ⟨rally', starter', hr', hs', -, -, ha, -, -, -, hrows⟩ := rallyComputed_inv h
    rw [hr] at hr'
    cases hr'
    rw [hs] at hs'
    cases hs'
    constructor
    · rw [ha]
      cases rally.arrivalAt <;> rfl
    · intro r hr
      rw [hrows] at hr
      obtain ⟨-, p, -, rfl⟩ := mem_computeRows.mp hr
      constructor
      · rfl
      · cases rally.rallyDurationMs <;> rfl
  · intro T now delay nameA nameB
    refine ⟨_, scenario_view T now delay nameA nameB, rfl, ?_, ?_⟩
    · intro r hr hB
      obtain ⟨-, p, hp, rfl⟩ := mem_computeRows.mp hr
      simp only [scenarioState, List.mem_cons, List.mem_singleton, List.not_mem_nil,
        or_false] at hp
      rcases hp with rfl | rfl
      · simp [mkRow] at hB
      · simp only [mkRow]
        constructor <;> ring
    · intro hle
      exact scenario_computeRows T now nameA nameB hle

/-- C4, a run: the scenario with `T = 1000000`, thirty seconds before the launch. -/
theorem arrival_and_row_instants_witness :
    ∃ view, rallyComputed (scenarioState 1000000 "Ann" "Bob") 970000 5 = some view ∧
      view.arrivalAt = 1000000 + 60000 ∧
      (∀ r ∈ view.rows, r.id = "B" →
        r.startAt = 1000000 + 30000 ∧ r.rallyStartAt = 1000000 - 270000) ∧
      ((970000 : ℚ) ≤ 1000000 + 60000 → view.rows = scenarioRows 1000000 970000 "Ann" "Bob") :=
  arrival_and_row_instants.2 1000000 970000 5 "Ann" "Bob"

/-- C6: `rallyComputed` yields no view exactly when there is no active rally or no
player of the roster has the rally's `starterId`; in every other case it yields
a view.  The function is total, so it never fails. -/
theorem no_view_iff (state : AppState) (now delay : ℚ) :
    (rallyComputed state now delay = none ↔
        state.rally = none ∨
          ∃ rally, state.rally = some rally ∧ ∀ p ∈ state.players, p.id ≠ rally.starterId) ∧
      ((∃ view, rallyComputed state now delay = some view) ↔
        ∃ rally, state.rally = some rally ∧ ∃ p ∈ state.players, p.id = rally.starterId) := by
  cases hr : state.rally with
  | none =>
    have h : rallyComputed state now delay = none := by simp [rallyComputed, hr]
    simp [h]
  | some rally =>
    cases hs : state.players.find? (fun p => decide (p.id = rally.starterId)) with
    | none =>
      have h : rallyComputed state now delay = none := by simp [rallyComputed, hr, hs]
      have hno : ∀ p ∈ state.players, p.id ≠ rally.starterId := by
        intro p hp
        simpa using List.find?_eq_none.mp hs p hp
      constructor
      · simp only [h, true_iff]
        exact Or.inr ⟨rally, rfl, hno⟩
      · rw [h]
        constructor
        · rintro ⟨view, hv⟩
          cases hv
        · rintro ⟨rally', hr', p, hp, hid⟩
          cases hr'
          exact absurd hid (hno p hp)
    | some starter =>
      have h : ∃ view, rallyComputed state now delay = some view := by
        simp [rallyComputed, hr, hs]
      have hmem : starter ∈ state.players := List.mem_of_find?_eq_some hs
      have hid : starter.id = rally.starterId := by simpa using List.find?_some hs
      obtain ⟨view, hview⟩ := h
      constructor
      · rw [hview]
        constructor
        · intro h0
          cases h0
        · rintro (h0 | ⟨rally', hr', hall⟩)
          · cases h0
          · cases hr'
            exact absurd hid (hall starter hmem)
      · constructor
        · intro _
          exact ⟨rally, rfl, starter, hmem, hid⟩
        · intro _
          exact ⟨view, hview⟩

/-- C7: the rows of a derived view are the roster participants whose
`landInMs = arrivalAt - now` is not negative, each once (the rows, read as
players, are a permutation of the roster filtered by that test), every row
carries that `landInMs`, and the rows are in non-decreasing order of `startAt`. -/
theorem rows_filtered_and_sorted (state : AppState) (now delay : ℚ) (view : RallyView)
    (h : rallyComputed state now delay = some view) :
    (∀ r ∈ view.rows, r.landInMs = view.arrivalAt - now ∧ 0 ≤ r.landInMs) ∧
      (view.rows.map Row.player).Perm
        (state.players.filter (fun _ => decide (0 ≤ view.arrivalAt - now))) ∧
      view.rows.Pairwise (fun a b => a.startAt ≤ b.startAt) := by
  obtain ⟨rally, starter, -, -, -, -, -, -, -, -, hrows⟩ := rallyComputed_inv h
  refine ⟨?_, ?_, ?_⟩
  · intro r hr
    rw [hrows] at hr
    obtain ⟨h0, p, -, rfl⟩ := mem_computeRows.mp hr
    exact ⟨rfl, h0⟩
  · by_cases h0 : 0 ≤ view.arrivalAt - now
    · rw [hrows]
      have hp := (@computeRows_perm state.players view.arrivalAt
        (rally.rallyDurationMs.getD (delay * 60 * 1000)) rally.launchAt now h0).map Row.player
      rw [List.map_map] at hp
      have hid : (Row.player ∘ mkRow view.arrivalAt
          (rally.rallyDurationMs.getD (delay * 60 * 1000)) rally.launchAt now) = id := by
        funext p
        rfl
      rw [hid, List.map_id] at hp
      simpa [h0] using hp
    · rw [hrows, computeRows_of_landed (lt_of_not_ge h0)]
      simp [h0]
  · rw [hrows]
    exact computeRows_sorted _ _ _ _ _

/-- C7, a run: in the two-player scenario thirty seconds before the launch both
players have a row, `A` (who starts first) before `B`. -/
theorem rows_filtered_and_sorted_witness :
    rallyComputed (scenarioState 1000000 "Ann" "Bob") 970000 5 =
        some
          { starter := { id := "A", name := "Ann", marchMs := 60000 }
            launchAt := 1000000
            rallyStartAt := 1000000 - 300000
            arrivalAt := 1000000 + 60000
            rows := scenarioRows 1000000 970000 "Ann" "Bob"
            joinRemainingMs := 1000000 - 970000
            phase := Phase.JOIN } ∧
      ((∀ r ∈ scenarioRows 1000000 970000 "Ann" "Bob",
          r.landInMs = 1000000 + 60000 - 970000 ∧ 0 ≤ r.landInMs) ∧
        ((scenarioRows 1000000 970000 "Ann" "Bob").map Row.player).Perm
          ((scenarioState 1000000 "Ann" "Bob").players.filter
            (fun _ => decide ((0 : ℚ) ≤ 1000000 + 60000 - 970000))) ∧
        (scenarioRows 1000000 970000 "Ann" "Bob").Pairwise (fun a b => a.startAt ≤ b.startAt)) :=
  have h : rallyComputed (scenarioState 1000000 "Ann" "Bob") 970000 5 =
      some
        { starter := { id := "A", name := "Ann", marchMs := 60000 }
          launchAt := 1000000
          rallyStartAt := 1000000 - 300000
          arrivalAt := 1000000 + 60000
          rows := scenarioRows 1000000 970000 "Ann" "Bob"
          joinRemainingMs := 1000000 - 970000
          phase := Phase.JOIN } := by
    rw [scenario_view, scenario_computeRows _ _ _ _ (by norm_num)]
    norm_num
  ⟨h, rows_filtered_and_sorted _ _ _ _ h⟩

/-! ## Announcements: lemmas -/

theorem targetFor_key {s : AnnounceSettings} {phase : Phase} {r : Row} {t : ℚ}
    {k : AnnouncementKey} (h : targetFor s phase r = some (t, k)) :
    k.targetTs = t ∧ k.id = r.id := by
  unfold targetFor at h
  split_ifs at h <;> simp only [Option.some.injEq, Prod.mk.injEq] at h
  · obtain ⟨rfl, rfl⟩ := h
    exact ⟨rfl, rfl⟩
  · obtain ⟨rfl, rfl⟩ := h
    exact ⟨rfl, rfl⟩

/-- One iteration either leaves the accumulator alone or, for a key that is not
yet in the set and a target inside the trigger window, adds the key and appends
the call in the same step. -/
theorem announceRow_step (s : AnnounceSettings) (phase : Phase) (now : ℚ)
    (acc : AnnounceAcc) (r : Row) :
    announceRow s phase now acc r = acc ∨
      ∃ t k, targetFor s phase r = some (t, k) ∧ k ∉ acc.announced ∧
        t - now ≤ triggerMs ∧ t - now > 600 ∧
        announceRow s phase now acc r =
          { announced := k :: acc.announced
            cues := acc.cues ++
              [{ key := k, playerName := r.name, targetTs := t, nowTs := now,
                 ttsVolume := s.ttsVolume, gainFactor := s.beepGainFactor }] } := by
  unfold announceRow
  split_ifs with hsel
  · exact Or.inl rfl
  · cases htf : targetFor s phase r with
    | none => exact Or.inl rfl
    | some tk =>
      obtain ⟨t, k⟩ := tk
      simp only
      split_ifs with hmem hwin
      · exact Or.inl rfl
      · exact Or.inr ⟨t, k, rfl, hmem, hwin.1, hwin.2, rfl⟩
      · exact Or.inl rfl

theorem foldl_announceRow_preserves (s : AnnounceSettings) (phase : Phase) (now : ℚ)
    (P : AnnounceAcc → Prop)
    (hstep : ∀ acc r, P acc → P (announceRow s phase now acc r)) :
    ∀ (rows : List Row) (acc : AnnounceAcc), P acc →
      P (rows.foldl (announceRow s phase now) acc) := by
  intro rows
  induction rows with
  | nil => intro acc h; exact h
  | cons r rs ih => intro acc h; exact ih _ (hstep acc r h)

theorem announcementEffect_preserves (P : AnnounceAcc → Prop)
    (hstep : ∀ s phase now acc r, P acc → P (announceRow s phase now acc r))
    (s : AnnounceSettings) (view : Option RallyView) (now : ℚ)
    (announced : List AnnouncementKey) (h0 : P { announced := announced, cues := [] }) :
    P (announcementEffect s view now announced) := by
  unfold announcementEffect
  split_ifs
  · exact h0
  · cases view with
    | none => exact h0
    | some v => exact foldl_announceRow_preserves s v.phase now P (hstep s v.phase now) _ _ h0

/-- The dedup invariant relative to the set `A0` a run started from: the set only
grows, the keys of the calls are pairwise distinct, and each is in the set now
but was not in `A0`. -/
theorem dedup_step (A0 : List AnnouncementKey) (s : AnnounceSettings) (phase : Phase)
    (now : ℚ) (acc : AnnounceAcc) (r : Row)
    (h : A0 ⊆ acc.announced ∧ (acc.cues.map Cue.key).Nodup ∧
      ∀ c ∈ acc.cues, c.key ∈ acc.announced ∧ c.key ∉ A0) :
    A0 ⊆ (announceRow s phase now acc r).announced ∧
      ((announceRow s phase now acc r).cues.map Cue.key).Nodup ∧
      ∀ c ∈ (announceRow s phase now acc r).cues,
        c.key ∈ (announceRow s phase now acc r).announced ∧ c.key ∉ A0 := by
  obtain ⟨hsub, hnd, hall⟩ := h
  rcases announceRow_step s phase now acc r with heq | ⟨t, k, -, hk, -, -, heq⟩
  · rw [heq]
    exact ⟨hsub, hnd, hall⟩
  · rw [heq]
    refine ⟨fun x hx => List.mem_cons_of_mem _ (hsub hx), ?_, ?_⟩
    · simp only [List.map_append, List.map_cons, List.map_nil]
      refine List.Nodup.append hnd (List.nodup_singleton _) ?_
      intro x hx hx'
      rw [List.mem_singleton] at hx'
      subst hx'
      obtain ⟨c, hc, rfl⟩ := List.mem_map.mp hx
      exact hk (hall c hc).1
    · intro c hc
      rcases List.mem_append.mp hc with hc | hc
      · exact ⟨List.mem_cons_of_mem _ (hall c hc).1, (hall c hc).2⟩
      · rw [List.mem_singleton] at hc
        subst hc
        exact ⟨List.mem_cons_self _ _, fun hin => hk (hsub hin)⟩

theorem dedup_effect (s : AnnounceSettings) (view : Option RallyView) (now : ℚ)
    (A0 : List AnnouncementKey) :
    A0 ⊆ (announcementEffect s view now A0).announced ∧
      ((announcementEffect s view now A0).cues.map Cue.key).Nodup ∧
      ∀ c ∈ (announcementEffect s view now A0).cues,
        c.key ∈ (announcementEffect s view now A0).announced ∧ c.key ∉ A0 :=
  announcementEffect_preserves
    (fun acc => A0 ⊆ acc.announced ∧ (acc.cues.map Cue.key).Nodup ∧
      ∀ c ∈ acc.cues, c.key ∈ acc.announced ∧ c.key ∉ A0)
    (fun s phase now acc r h => dedup_step A0 s phase now acc r h) s view now A0
    ⟨fun _ hx => hx, List.nodup_nil, fun c hc => absurd hc (List.not_mem_nil c)⟩

theorem dedup_runTicks (ticks : List Tick) :
    ∀ A0 : List AnnouncementKey,
      A0 ⊆ (runTicks A0 ticks).announced ∧
        ((runTicks A0 ticks).cues.map Cue.key).Nodup ∧
        ∀ c ∈ (runTicks A0 ticks).cues,
          c.key ∈ (runTicks A0 ticks).announced ∧ c.key ∉ A0 := by
  induction ticks with
  | nil =>
    intro A0
    exact ⟨fun _ hx => hx, List.nodup_nil, fun c hc => absurd hc (List.not_mem_nil c)⟩
  | cons t ts ih =>
    intro A0
    obtain ⟨hsub1, hnd1, hall1⟩ := dedup_effect t.settings t.view t.now A0
    obtain ⟨hsub2, hnd2, hall2⟩ := ih (announcementEffect t.settings t.view t.now A0).announced
    simp only [runTicks]
    refine ⟨fun x hx => hsub2 (hsub1 hx), ?_, ?_⟩
    · rw [List.map_append]
      refine List.Nodup.append hnd1 hnd2 ?_
      intro x hx hx'
      obtain ⟨c, hc, rfl⟩ := List.mem_map.mp hx
      obtain ⟨c', hc', hcc⟩ := List.mem_map.mp hx'
      exact (hall2 c' hc').2 (hcc ▸ (hall1 c hc).1)
    · intro c hc
      rcases List.mem_append.mp hc with hc | hc
      · exact ⟨hsub2 (hall1 c hc).1, (hall1 c hc).2⟩
      · exact ⟨(hall2 c hc).1, fun hin => (hall2 c hc).2 (hsub1 hin)⟩

/-- In the two-player scenario, 3 s before `B` must start the rally, the effect
calls for `B` once and marks the key. -/
theorem scenario_effect_join :
    announcementEffect scenarioSettings
        (rallyComputed (scenarioState 1000000 "Ann" "Bob") 727000 5) 727000 [] =
      { announced := [{ kind := CueKind.rally, id := "B", targetTs := 730000 }]
        cues := [{ key := { kind := CueKind.rally, id := "B", targetTs := 730000 }
                   playerName := "Bob"
                   targetTs := 730000
                   nowTs := 727000
                   ttsVolume := 8 / 10
                   gainFactor := 7 / 10 }] } := by
  rw [scenario_view, scenario_computeRows _ _ _ _ (by norm_num)]
  norm_num [announcementEffect, announceRow, targetFor, effectiveOnlySelected,
    scenarioSettings, scenarioRows, triggerMs]

theorem scenario_effect_repeat :
    announcementEffect scenarioSettings
        (rallyComputed (scenarioState 1000000 "Ann" "Bob") 727200 5) 727200
        [{ kind := CueKind.rally, id := "B", targetTs := 730000 }] =
      { announced := [{ kind := CueKind.rally, id := "B", targetTs := 730000 }]
        cues := [] } := by
  rw [scenario_view, scenario_computeRows _ _ _ _ (by norm_num)]
  norm_num [announcementEffect, announceRow, targetFor, effectiveOnlySelected,
    scenarioSettings, scenarioRows, triggerMs]

theorem scenario_effect_march :
    announcementEffect scenarioSettings
        (rallyComputed (scenarioState 1000000 "Ann" "Bob") 1025000 5) 1025000
        [{ kind := CueKind.rally, id := "B", targetTs := 730000 }] =
      { announced := [{ kind := CueKind.march, id := "B", targetTs := 1030000 },
                      { kind := CueKind.rally, id := "B", targetTs := 730000 }]
        cues := [{ key := { kind := CueKind.march, id := "B", targetTs := 1030000 }
                   playerName := "Bob"
                   targetTs := 1030000
                   nowTs := 1025000
                   ttsVolume := 8 / 10
                   gainFactor := 7 / 10 }] } := by
  rw [scenario_view, scenario_computeRows _ _ _ _ (by norm_num)]
  have hne : Phase.MARCH ≠ Phase.JOIN := by decide
  norm_num [announcementEffect, announceRow, targetFor, effectiveOnlySelected,
    scenarioSettings, scenarioRows, triggerMs, hne]

theorem scenario_runTicks :
    runTicks [] [scenarioTick 727000, scenarioTick 727200, scenarioTick 1025000] =
      { announced := [{ kind := CueKind.march, id := "B", targetTs := 1030000 },
                      { kind := CueKind.rally, id := "B", targetTs := 730000 }]
        cues := [{ key := { kind := CueKind.rally, id := "B", targetTs := 730000 }
                   playerName := "Bob"
                   targetTs := 730000
                   nowTs := 727000
                   ttsVolume := 8 / 10
                   gainFactor := 7 / 10 },
                 { key := { kind := CueKind.march, id := "B", targetTs := 1030000 }
                   playerName := "Bob"
                   targetTs := 1030000
                   nowTs := 1025000
                   ttsVolume := 8 / 10
                   gainFactor := 7 / 10 }] } := by
  simp only [runTicks, scenarioTick, scenario_effect_join, scenario_effect_repeat,
    scenario_effect_march, List.append_nil, List.nil_append, List.singleton_append]

theorem announceRow_outside_window (s : AnnounceSettings) (phase : Phase) (now : ℚ)
    (acc : AnnounceAcc) (r : Row)
    (h : ∀ t k, targetFor s phase r = some (t, k) → ¬ (600 < t - now ∧ t - now ≤ 5200)) :
    announceRow s phase now acc r = acc := by
  rcases announceRow_step s phase now acc r with heq | ⟨t, k, htf, -, hle, hgt, -⟩
  · exact heq
  · exact absurd ⟨hgt, hle⟩ (h t k htf)

theorem window_step (A0 : List AnnouncementKey) (now0 : ℚ) (s : AnnounceSettings)
    (phase : Phase) (acc : AnnounceAcc) (r : Row)
    (h : (∀ c ∈ acc.cues, 0 < c.targetTs - now0 ∧ c.targetTs - now0 ≤ 5200 ∧
        c.targetTs - now0 > 600 ∧ c.key.targetTs = c.targetTs ∧ c.nowTs = now0) ∧
      acc.announced = (acc.cues.map Cue.key).reverse ++ A0) :
    (∀ c ∈ (announceRow s phase now0 acc r).cues,
        0 < c.targetTs - now0 ∧ c.targetTs - now0 ≤ 5200 ∧
        c.targetTs - now0 > 600 ∧ c.key.targetTs = c.targetTs ∧ c.nowTs = now0) ∧
      (announceRow s phase now0 acc r).announced =
        ((announceRow s phase now0 acc r).cues.map Cue.key).reverse ++ A0 := by
  obtain ⟨hall, hann⟩ := h
  rcases announceRow_step s phase now0 acc r with heq | ⟨t, k, htf, -, hle, hgt, heq⟩
  · rw [heq]
    exact ⟨hall, hann⟩
  · rw [heq]
    constructor
    · intro c hc
      rcases List.mem_append.mp hc with hc | hc
      · exact hall c hc
      · rw [List.mem_singleton] at hc
        subst hc
        unfold triggerMs at hle
        exact ⟨by linarith, hle, hgt, (targetFor_key htf).1, rfl⟩
    · simp [hann]

/-! ## Announcements: theorems -/

/-- C8: over any sequence of runs of the announcement effect with no reset in
between, started from any set of announced keys, the keys of the calls made are
pairwise distinct (at most one call per `(phase, participantId, targetInstant)`
key), none of them was in the set at the start and all are in it at the end, and
the set only grows.  In each iteration a call is made only for a key that is
not in the set, and the key is added in the same step. -/
theorem cue_at_most_once_per_key :
    (∀ (announced : List AnnouncementKey) (ticks : List Tick),
      ((runTicks announced ticks).cues.map Cue.key).Nodup ∧
        (∀ c ∈ (runTicks announced ticks).cues,
          c.key ∉ announced ∧ c.key ∈ (runTicks announced ticks).announced) ∧
        announced ⊆ (runTicks announced ticks).announced) ∧
      (∀ (s : AnnounceSettings) (phase : Phase) (now : ℚ) (acc : AnnounceAcc) (r : Row),
        announceRow s phase now acc r = acc ∨
          ∃ cue : Cue, cue.key ∉ acc.announced ∧
            announceRow s phase now acc r =
              { announced := cue.key :: acc.announced, cues := acc.cues ++ [cue] }) := by
  constructor
  · intro announced ticks
    obtain ⟨hsub, hnd, hall⟩ := dedup_runTicks ticks announced
    exact ⟨hnd, fun c hc => ⟨(hall c hc).2, (hall c hc).1⟩, hsub⟩
  · intro s phase now acc r
    rcases announceRow_step s phase now acc r with heq | ⟨t, k, -, hk, -, -, heq⟩
    · exact Or.inl heq
    · exact Or.inr
        ⟨{ key := k, playerName := r.name, targetTs := t, nowTs := now,
           ttsVolume := s.ttsVolume, gainFactor := s.beepGainFactor }, hk, heq⟩

/-- C8, a run: three ticks of the two-player scenario.  The first calls `B` to the
rally start, the second (200 ms later, same target) calls nobody, the third
calls `B` to the march start: two calls with two distinct keys. -/
theorem cue_at_most_once_per_key_witness :
    (runTicks [] [scenarioTick 727000, scenarioTick 727200, scenarioTick 1025000]).cues.map
        Cue.key =
        [{ kind := CueKind.rally, id := "B", targetTs := 730000 },
         { kind := CueKind.march, id := "B", targetTs := 1030000 }] ∧
      ((runTicks [] [scenarioTick 727000, scenarioTick 727200,
        scenarioTick 1025000]).cues.map Cue.key).Nodup :=
  ⟨by rw [scenario_runTicks]; rfl,
    (cue_at_most_once_per_key.1 []
      [scenarioTick 727000, scenarioTick 727200, scenarioTick 1025000]).1⟩

/-- C9: a run of the announcement effect makes a call for a target instant only
when `0 < targetTs - now ≤ 5200` and `targetTs - now > 600`; the keys it marks
are exactly the keys of the calls it makes; and when the target of every row
has `targetTs - now` outside `(600, 5200]`, it makes no call and marks no key. -/
theorem cue_only_in_trigger_window (s : AnnounceSettings) (view : Option RallyView) (now : ℚ)
    (announced : List AnnouncementKey) :
    (∀ c ∈ (announcementEffect s view now announced).cues,
        0 < c.targetTs - now ∧ c.targetTs - now ≤ 5200 ∧ c.targetTs - now > 600 ∧
          c.key.targetTs = c.targetTs ∧ c.nowTs = now) ∧
      (announcementEffect s view now announced).announced =
        ((announcementEffect s view now announced).cues.map Cue.key).reverse ++ announced ∧
      ((∀ v, view = some v → ∀ r ∈ v.rows, ∀ t k, targetFor s v.phase r = some (t, k) →
          ¬ (600 < t - now ∧ t - now ≤ 5200)) →
        announcementEffect s view now announced = { announced := announced, cues := [] }) := by
  refine ⟨?_, ?_, ?_⟩
  · unfold announcementEffect
    split_ifs
    · simp
    · cases view with
      | none => simp
      | some v =>
        exact (foldl_announceRow_preserves s v.phase now _
          (fun acc r h => window_step announced now s v.phase acc r h) v.rows
          { announced := announced, cues := [] } ⟨by simp, by simp⟩).1
  · unfold announcementEffect
    split_ifs
    · simp
    · cases view with
      | none => simp
      | some v =>
        exact (foldl_announceRow_preserves s v.phase now _
          (fun acc r h => window_step announced now s v.phase acc r h) v.rows
          { announced := announced, cues := [] } ⟨by simp, by simp⟩).2
  · intro hout
    unfold announcementEffect
    split_ifs
    · rfl
    · cases view with
      | none => rfl
      | some v =>
        have hrows := hout v rfl
        simp only
        generalize v.rows = rows at hrows
        induction rows with
        | nil => rfl
        | cons r rs ih =>
          rw [List.foldl_cons, announceRow_outside_window s v.phase now _ r
            (hrows r (List.mem_cons_self _ _))]
          exact ih (fun r' hr' => hrows r' (List.mem_cons_of_mem _ hr'))

/-- C9, a run: in the two-player scenario at `now = 727000` the rally start of `B`
is 3000 ms ahead and is called, that of `A` is 27000 ms in the past and is not. -/
theorem cue_only_in_trigger_window_witness :
    (announcementEffect scenarioSettings
        (rallyComputed (scenarioState 1000000 "Ann" "Bob") 727000 5) 727000 []).cues.map
        Cue.targetTs = [730000] ∧
      ∀ c ∈ (announcementEffect scenarioSettings
          (rallyComputed (scenarioState 1000000 "Ann" "Bob") 727000 5) 727000 []).cues,
        0 < c.targetTs - 727000 ∧ c.targetTs - 727000 ≤ 5200 ∧ c.targetTs - 727000 > 600 ∧
          c.key.targetTs = c.targetTs ∧ c.nowTs = 727000 :=
  ⟨by rw [scenario_effect_join]; rfl,
    (cue_only_in_trigger_window scenarioSettings
      (rallyComputed (scenarioState 1000000 "Ann" "Bob") 727000 5) 727000 []).1⟩

/-! ## Double arithmetic: lemmas -/

theorem abs_roundHalfEven_sub_le (x : ℚ) : |(roundHalfEven x : ℚ) - x| ≤ 1 / 2 := by
  have h1 := Int.floor_le x
  have h2 := Int.lt_floor_add_one x
  unfold roundHalfEven
  rw [abs_le]
  split_ifs with ha hb hc <;> push_cast <;> constructor <;> linarith

theorem roundHalfEven_mono {x y : ℚ} (h : x ≤ y) : roundHalfEven x ≤ roundHalfEven y := by
  by_contra hlt
  have hlt' : roundHalfEven y + 1 ≤ roundHalfEven x := by omega
  have hq : ((roundHalfEven y : ℤ) : ℚ) + 1 ≤ (roundHalfEven x : ℚ) := by exact_mod_cast hlt'
  have hx := abs_le.mp (abs_roundHalfEven_sub_le x)
  have hy := abs_le.mp (abs_roundHalfEven_sub_le y)
  have hxy : x = y := by linarith [hx.2, hy.1]
  subst hxy
  omega

theorem roundHalfEven_eq_of_abs_lt {x : ℚ} {m : ℤ} (h : |x - m| < 1 / 2) :
    roundHalfEven x = m := by
  have hx := abs_le.mp (abs_roundHalfEven_sub_le x)
  have hm := abs_lt.mp h
  have h1 : ((roundHalfEven x - m : ℤ) : ℚ) < 1 := by push_cast; linarith [hx.2, hm.1]
  have h2 : (-1 : ℚ) < ((roundHalfEven x - m : ℤ) : ℚ) := by push_cast; linarith [hx.1, hm.2]
  have h1' : roundHalfEven x - m < 1 := by exact_mod_cast h1
  have h2' : -1 < roundHalfEven x - m := by exact_mod_cast h2
  omega

theorem two_zpow_pos (k : ℤ) : (0 : ℚ) < 2 ^ k := zpow_pos (by norm_num) k

theorem log_eq_of_bounds {q : ℚ} {e : ℤ} (h1 : (2 : ℚ) ^ e ≤ q) (h2 : q < 2 ^ (e + 1)) :
    Int.log 2 q = e := by
  have hq : 0 < q := lt_of_lt_of_le (two_zpow_pos e) h1
  have ha : e ≤ Int.log 2 q := (Int.zpow_le_iff_le_log (by norm_num) hq).mp (by simpa using h1)
  have hb : Int.log 2 q < e + 1 := (Int.lt_zpow_iff_log_lt (by norm_num) hq).mp (by simpa using h2)
  omega

theorem zpow_log_le_abs {q : ℚ} (hq : q ≠ 0) : (2 : ℚ) ^ Int.log 2 |q| ≤ |q| := by
  simpa using Int.zpow_log_le_self  (by norm_num) (abs_pos.mpr hq)

theorem abs_lt_zpow_log_succ (q : ℚ) : |q| < (2 : ℚ) ^ (Int.log 2 |q| + 1) := by
  simpa using Int.lt_zpow_succ_log_self  (by norm_num) |q|


theorem log_le_doubleExp (q : ℚ) : Int.log 2 |q| ≤ doubleExp q := le_max_left _ _

theorem abs_lt_zpow_doubleExp_succ (q : ℚ) : |q| < (2 : ℚ) ^ (doubleExp q + 1) :=
  lt_of_lt_of_le (abs_lt_zpow_log_succ q)
    (zpow_le_zpow_right₀ (by norm_num) (by linarith [log_le_doubleExp q]))

theorem doubleExp_le_of_abs_lt {q : ℚ} {K : ℤ} (hq : q ≠ 0) (hK : -1021 ≤ K)
    (h : |q| < (2 : ℚ) ^ K) : doubleExp q ≤ K - 1 := by
  have hlog : Int.log 2 |q| < K :=
    (Int.lt_zpow_iff_log_lt (by norm_num) (abs_pos.mpr hq)).mp (by simpa using h)
  unfold doubleExp
  exact max_le (by omega) (by omega)

theorem roundDouble_of_ne {q : ℚ} (hq : q ≠ 0) :
    roundDouble q =
      (roundHalfEven (q / 2 ^ (doubleExp q - 52)) : ℚ) * 2 ^ (doubleExp q - 52) := by
  unfold roundDouble
  rw [if_neg hq]

/-- The rounding error is at most half a unit in the last place. -/
theorem abs_roundDouble_sub_le_ulp (q : ℚ) :
    |roundDouble q - q| ≤ 2 ^ (doubleExp q - 53) := by
  by_cases hq : q = 0
  · subst hq
    simp only [roundDouble, if_true, sub_self, abs_zero]
    exact le_of_lt (two_zpow_pos _)
  · rw [roundDouble_of_ne hq]
    have hu := two_zpow_pos (doubleExp q - 52)
    have hr := abs_roundHalfEven_sub_le (q / 2 ^ (doubleExp q - 52))
    have heq : (roundHalfEven (q / 2 ^ (doubleExp q - 52)) : ℚ) * 2 ^ (doubleExp q - 52) - q =
        ((roundHalfEven (q / 2 ^ (doubleExp q - 52)) : ℚ) - q / 2 ^ (doubleExp q - 52)) *
          2 ^ (doubleExp q - 52) := by
      field_simp
    rw [heq, abs_mul, abs_of_pos hu]
    have hhalf : (2 : ℚ) ^ (doubleExp q - 53) = 1 / 2 * 2 ^ (doubleExp q - 52) := by
      have : doubleExp q - 52 = (doubleExp q - 53) + 1 := by ring
      rw [this, zpow_add_one₀ (by norm_num)]
      ring
    rw [hhalf]
    exact mul_le_mul_of_nonneg_right hr (le_of_lt hu)

theorem abs_roundDouble_sub_le {q : ℚ} {K : ℤ} (hK : -1021 ≤ K) (h : |q| < (2 : ℚ) ^ K) :
    |roundDouble q - q| ≤ 2 ^ (K - 54) := by
  by_cases hq : q = 0
  · subst hq
    simp only [roundDouble, if_true, sub_self, abs_zero]
    exact le_of_lt (two_zpow_pos _)
  · refine le_trans (abs_roundDouble_sub_le_ulp q) ?_
    exact zpow_le_zpow_right₀ (by norm_num) (by linarith [doubleExp_le_of_abs_lt hq hK h])


theorem roundHalfEven_intCast (m : ℤ) : roundHalfEven (m : ℚ) = m :=
  roundHalfEven_eq_of_abs_lt (by simp)

theorem roundHalfEven_neg (x : ℚ) : roundHalfEven (-x) = -roundHalfEven x := by
  have h1 := Int.floor_le x
  have h2 := Int.lt_floor_add_one x
  by_cases htie : x - ⌊x⌋ = 1 / 2
  · have hfl : ⌊-x⌋ = -⌊x⌋ - 1 := by
      rw [Int.floor_eq_iff]
      push_cast
      constructor <;> linarith
    have hr : -x - ((-⌊x⌋ - 1 : ℤ) : ℚ) = 1 / 2 := by
      push_cast
      linarith
    unfold roundHalfEven
    rw [hfl, hr, htie]
    simp only [lt_self_iff_false, if_false]
    split_ifs <;> omega
  · have hlt : |x - (roundHalfEven x : ℚ)| < 1 / 2 := by
      unfold roundHalfEven
      rw [abs_lt]
      split_ifs with ha hb
      · constructor <;> linarith
      · push_cast
        constructor <;> linarith
      · exact absurd (le_antisymm (not_lt.mp hb) (not_lt.mp ha)) htie
      · exact absurd (le_antisymm (not_lt.mp hb) (not_lt.mp ha)) htie
    apply roundHalfEven_eq_of_abs_lt
    push_cast
    rw [abs_lt] at hlt ⊢
    constructor <;> linarith [hlt.1, hlt.2]

theorem doubleExp_neg (q : ℚ) : doubleExp (-q) = doubleExp q := by
  unfold doubleExp
  rw [abs_neg]

theorem roundDouble_neg (q : ℚ) : roundDouble (-q) = -roundDouble q := by
  by_cases hq : q = 0
  · subst hq
    simp [roundDouble]
  · rw [roundDouble_of_ne hq, roundDouble_of_ne (neg_ne_zero.mpr hq), doubleExp_neg, neg_div,
      roundHalfEven_neg]
    push_cast
    ring

theorem roundDouble_zero : roundDouble 0 = 0 := by
  simp [roundDouble]

theorem roundDouble_nonneg {q : ℚ} (h : 0 ≤ q) : 0 ≤ roundDouble q := by
  by_cases hq : q = 0
  · rw [hq, roundDouble_zero]
  · rw [roundDouble_of_ne hq]
    have hu := two_zpow_pos (doubleExp q - 52)
    have h0 : roundHalfEven 0 ≤ roundHalfEven (q / 2 ^ (doubleExp q - 52)) :=
      roundHalfEven_mono (div_nonneg h (le_of_lt hu))
    have hz : roundHalfEven 0 = 0 := by simpa using roundHalfEven_intCast 0
    rw [hz] at h0
    exact mul_nonneg (by exact_mod_cast h0) (le_of_lt hu)

/-- A rounded value does not leave the binade of its argument upwards. -/
theorem roundDouble_le_zpow {q : ℚ} (hq : q ≠ 0) :
    roundDouble q ≤ 2 ^ (doubleExp q + 1) := by
  rw [roundDouble_of_ne hq]
  have hu := two_zpow_pos (doubleExp q - 52)
  have hsplit : (2 : ℚ) ^ (doubleExp q + 1) = 2 ^ (53 : ℤ) * 2 ^ (doubleExp q - 52) := by
    rw [← zpow_add₀ (by norm_num)]
    congr 1
    ring
  have hlt : q / 2 ^ (doubleExp q - 52) < 2 ^ (53 : ℤ) := by
    rw [div_lt_iff₀ hu, ← hsplit]
    exact lt_of_le_of_lt (le_abs_self q) (abs_lt_zpow_doubleExp_succ q)
  have hr := (abs_le.mp (abs_roundHalfEven_sub_le (q / 2 ^ (doubleExp q - 52)))).2
  have hint : roundHalfEven (q / 2 ^ (doubleExp q - 52)) ≤ 2 ^ 53 := by
    have h1 : (roundHalfEven (q / 2 ^ (doubleExp q - 52)) : ℚ) < ((2 ^ 53 + 1 : ℤ) : ℚ) := by
      push_cast
      norm_num at hlt ⊢
      linarith
    have h2 : roundHalfEven (q / 2 ^ (doubleExp q - 52)) < 2 ^ 53 + 1 := by exact_mod_cast h1
    omega
  rw [hsplit]
  refine mul_le_mul_of_nonneg_right ?_ (le_of_lt hu)
  have : ((roundHalfEven (q / 2 ^ (doubleExp q - 52)) : ℤ) : ℚ) ≤ ((2 ^ 53 : ℤ) : ℚ) := by
    exact_mod_cast hint
  norm_num at this ⊢
  exact this

/-- A rounded positive normal value does not leave its binade downwards. -/
theorem zpow_le_roundDouble {q : ℚ} (hq : 0 < q) (hn : doubleExp q = Int.log 2 |q|) :
    2 ^ doubleExp q ≤ roundDouble q := by
  rw [roundDouble_of_ne (ne_of_gt hq)]
  have hu := two_zpow_pos (doubleExp q - 52)
  have hsplit : (2 : ℚ) ^ doubleExp q = 2 ^ (52 : ℤ) * 2 ^ (doubleExp q - 52) := by
    rw [← zpow_add₀ (by norm_num)]
    congr 1
    ring
  have hge : (2 : ℚ) ^ (52 : ℤ) ≤ q / 2 ^ (doubleExp q - 52) := by
    rw [le_div_iff₀ hu, ← hsplit, hn]
    have := zpow_log_le_abs (ne_of_gt hq)
    rwa [abs_of_pos hq] at this ⊢
  have hr := (abs_le.mp (abs_roundHalfEven_sub_le (q / 2 ^ (doubleExp q - 52)))).1
  have hint : 2 ^ 52 ≤ roundHalfEven (q / 2 ^ (doubleExp q - 52)) := by
    have h1 : ((2 ^ 52 - 1 : ℤ) : ℚ) < (roundHalfEven (q / 2 ^ (doubleExp q - 52)) : ℚ) := by
      push_cast
      norm_num at hge ⊢
      linarith
    have h2 : 2 ^ 52 - 1 < roundHalfEven (q / 2 ^ (doubleExp q - 52)) := by exact_mod_cast h1
    omega
  rw [hsplit]
  refine mul_le_mul_of_nonneg_right ?_ (le_of_lt hu)
  have : ((2 ^ 52 : ℤ) : ℚ) ≤ ((roundHalfEven (q / 2 ^ (doubleExp q - 52)) : ℤ) : ℚ) := by
    exact_mod_cast hint
  norm_num at this ⊢
  exact this

theorem roundDouble_mono_pos {x y : ℚ} (hx : 0 < x) (h : x ≤ y) :
    roundDouble x ≤ roundDouble y := by
  have hy : 0 < y := lt_of_lt_of_le hx h
  have hlog : Int.log 2 |x| ≤ Int.log 2 |y| := by
    rw [abs_of_pos hx, abs_of_pos hy]
    exact Int.log_mono_right hx h
  have hE : doubleExp x ≤ doubleExp y := max_le_max hlog (le_refl _)
  rcases eq_or_lt_of_le hE with heq | hlt
  · rw [roundDouble_of_ne (ne_of_gt hx), roundDouble_of_ne (ne_of_gt hy), heq]
    have hu := two_zpow_pos (doubleExp y - 52)
    refine mul_le_mul_of_nonneg_right ?_ (le_of_lt hu)
    have := roundHalfEven_mono (div_le_div_of_nonneg_right h (le_of_lt hu))
    exact_mod_cast this
  · have hn : doubleExp y = Int.log 2 |y| := by
      have h1022 : -1022 ≤ doubleExp x := le_max_right _ _
      unfold doubleExp at hlt ⊢
      exact max_eq_left (by
        by_contra hc
        rw [max_eq_right (le_of_lt (not_le.mp hc))] at hlt
        unfold doubleExp at h1022
        omega)
    calc roundDouble x ≤ 2 ^ (doubleExp x + 1) := roundDouble_le_zpow (ne_of_gt hx)
      _ ≤ 2 ^ doubleExp y := zpow_le_zpow_right₀ (by norm_num) (by omega)
      _ ≤ roundDouble y := zpow_le_roundDouble hy hn

/-- Rounding to the nearest double is monotone. -/
theorem roundDouble_mono {x y : ℚ} (h : x ≤ y) : roundDouble x ≤ roundDouble y := by
  rcases lt_trichotomy 0 x with hx | hx | hx
  · exact roundDouble_mono_pos hx h
  · rw [← hx] at h ⊢
    rw [roundDouble_zero]
    exact roundDouble_nonneg h
  · rcases le_or_lt 0 y with hy | hy
    · have h1 : roundDouble x ≤ 0 := by
        have := roundDouble_nonneg (le_of_lt (neg_pos.mpr hx))
        rw [roundDouble_neg] at this
        linarith
      exact le_trans h1 (roundDouble_nonneg hy)
    · have := roundDouble_mono_pos (neg_pos.mpr hy) (neg_le_neg h)
      rw [roundDouble_neg, roundDouble_neg] at this
      linarith


/-- How a positive value is rounded, given its binade and the nearest multiple
of the unit in the last place. -/
theorem roundDouble_eq {q : ℚ} (e m : ℤ) (he : -1022 ≤ e) (h1 : (2 : ℚ) ^ e ≤ q)
    (h2 : q < 2 ^ (e + 1)) (hm : |q / 2 ^ (e - 52) - m| < 1 / 2) :
    roundDouble q = m * 2 ^ (e - 52) := by
  have hq : 0 < q := lt_of_lt_of_le (two_zpow_pos e) h1
  have hlog : Int.log 2 |q| = e := by
    rw [abs_of_pos hq]
    exact log_eq_of_bounds h1 h2
  have hE : doubleExp q = e := by
    unfold doubleExp
    rw [hlog]
    exact max_eq_left he
  rw [roundDouble_of_ne (ne_of_gt hq), hE, roundHalfEven_eq_of_abs_lt hm]


theorem fsub_5020_0 : fsub 5020 0 = 5020 := by
  have h := @roundDouble_eq (5020 - 0) 12 5519548371435520 (by norm_num) (by norm_num)
    (by norm_num) (by norm_num)
  rw [fsub, h]
  norm_num

theorem fdiv_5020_1000 : fdiv 5020 1000 = 1413004383087493 / 281474976710656 := by
  have h := @roundDouble_eq (5020 / 1000) 2 5652017532349972 (by norm_num) (by norm_num)
    (by norm_num) (by norm_num [abs_lt])
  rw [fdiv, h]
  norm_num

theorem roundDouble_2_100 : roundDouble (2 / 100) = 5764607523034235 / 288230376151711744 := by
  have h := @roundDouble_eq (2 / 100) (-6) 5764607523034235 (by norm_num) (by norm_num)
    (by norm_num) (by norm_num [abs_lt])
  rw [h]
  norm_num


theorem fadd_0_s0 :
    fadd 0 (1413004383087493 / 281474976710656) = 1413004383087493 / 281474976710656 := by
  have h := @roundDouble_eq (0 + 1413004383087493 / 281474976710656) 2 5652017532349972
    (by norm_num) (by norm_num) (by norm_num) (by norm_num)
  rw [fadd, h]
  norm_num

theorem fsub_s0_5 :
    fsub (1413004383087493 / 281474976710656) 5 = 5629499534213 / 281474976710656 := by
  have h := @roundDouble_eq (1413004383087493 / 281474976710656 - 5) (-6) 5764607523034112
    (by norm_num) (by norm_num) (by norm_num) (by norm_num)
  rw [fsub, h]
  norm_num

theorem fadd_0_c :
    fadd 0 (5764607523034235 / 288230376151711744) =
      5764607523034235 / 288230376151711744 := by
  have h := @roundDouble_eq (0 + 5764607523034235 / 288230376151711744) (-6) 5764607523034235
    (by norm_num) (by norm_num) (by norm_num) (by norm_num)
  rw [fadd, h]
  norm_num

theorem roundDouble_one : roundDouble 1 = 1 := by
  have h := @roundDouble_eq 1 0 4503599627370496 (by norm_num) (by norm_num)
    (by norm_num) (by norm_num)
  rw [h]
  norm_num

/-- Rounding a value below `2^33` in size moves it by less than half a microsecond. -/
theorem roundDouble_close {q : ℚ} (h : |q| < 8589934592) :
    |roundDouble q - q| ≤ 1 / 2000000 := by
  have hb := @abs_roundDouble_sub_le q 33 (by norm_num) (by norm_num; exact h)
  refine le_trans hb ?_
  norm_num

/-! ## Countdown audio: theorems -/

/-- With a context and the loaded assets, the scheduled list is the numbered
cues that pass the guard, in the order 5, 4, 3, 2, 1, followed by the go cue if
it passes. -/
theorem scheduleCountdownToTarget_loaded (audioNow targetTs nowTs gainFactor : ℚ) :
    scheduleCountdownToTarget
        { currentTime := some audioNow, countdownBuffers := some loadedBuffers }
        targetTs nowTs gainFactor =
      [5, 4, 3, 2, 1].filterMap (fun n : ℕ =>
          if fsub (fadd audioNow (max 0 (fdiv (fsub targetTs nowTs) 1000))) (n : ℚ) ≥
              fadd audioNow (roundDouble (2 / 100)) then
            some { buffer := some (AudioBuffer.countdown n)
                   timeSec := fsub (fadd audioNow (max 0 (fdiv (fsub targetTs nowTs) 1000))) (n : ℚ)
                   gain := gainFactor }
          else none) ++
        (if fadd audioNow (max 0 (fdiv (fsub targetTs nowTs) 1000)) ≥
            fadd audioNow (roundDouble (2 / 100)) then
          [{ buffer := some AudioBuffer.go
             timeSec := fadd audioNow (max 0 (fdiv (fsub targetTs nowTs) 1000))
             gain := fmul gainFactor GO_GAIN_FACTOR }]
        else []) := by
  rfl

/-- C10: with audio available and the assets loaded,
`scheduleCountdownToTarget(targetTs, nowTs)` works with
`base = audioNow + max(0, (targetTs - nowTs) / 1000)` and schedules exactly these
events, each once: the numbered cue `n` (for `n` = 5, 4, 3, 2, 1) at `base - n`
if and only if `base - n ≥ audioNow + 0.02`, and the go cue at `base` if and
only if `base ≥ audioNow + 0.02`.  The operations are the double operations of
the code (`fsub`, `fdiv`, `fadd`), and `0.02` is the double of that literal. -/
theorem countdown_schedule (audioNow targetTs nowTs gainFactor : ℚ) :
    (∀ e : ScheduledBuffer,
      e ∈ scheduleCountdownToTarget
          { currentTime := some audioNow, countdownBuffers := some loadedBuffers }
          targetTs nowTs gainFactor ↔
        (∃ n : ℕ, n ∈ [5, 4, 3, 2, 1] ∧
          fsub (fadd audioNow (max 0 (fdiv (fsub targetTs nowTs) 1000))) (n : ℚ) ≥
            fadd audioNow (roundDouble (2 / 100)) ∧
          e = { buffer := some (AudioBuffer.countdown n)
                timeSec := fsub (fadd audioNow (max 0 (fdiv (fsub targetTs nowTs) 1000))) (n : ℚ)
                gain := gainFactor }) ∨
        (fadd audioNow (max 0 (fdiv (fsub targetTs nowTs) 1000)) ≥
            fadd audioNow (roundDouble (2 / 100)) ∧
          e = { buffer := some AudioBuffer.go
                timeSec := fadd audioNow (max 0 (fdiv (fsub targetTs nowTs) 1000))
                gain := fmul gainFactor (roundDouble (6 / 10)) })) ∧
      (scheduleCountdownToTarget
        { currentTime := some audioNow, countdownBuffers := some loadedBuffers }
        targetTs nowTs gainFactor).Nodup := by
  rw [scheduleCountdownToTarget_loaded]
  constructor
  · intro e
    rw [List.mem_append, List.mem_filterMap]
    constructor
    · rintro (⟨n, hn, hf⟩ | hgo)
      · left
        split_ifs at hf with hc
        exact ⟨n, hn, hc, (Option.some.inj hf).symm⟩
      · right
        split_ifs at hgo with hc
        · exact ⟨hc, List.mem_singleton.mp hgo⟩
        · cases hgo
    · rintro (⟨n, hn, hc, rfl⟩ | ⟨hc, rfl⟩)
      · left
        exact ⟨n, hn, by rw [if_pos hc]⟩
      · right
        rw [if_pos hc]
        exact List.mem_singleton_self _
  · refine List.Nodup.append ?_ ?_ ?_
    · refine List.Nodup.filterMap ?_ (by decide)
      intro a a' b hb hb'
      split_ifs at hb with hc
      · split_ifs at hb' with hc'
        · have h1 := Option.some.inj (Option.mem_def.mp hb)
          have h2 := Option.some.inj (Option.mem_def.mp hb')
          rw [← h2] at h1
          simpa using congrArg ScheduledBuffer.buffer h1
        · cases hb'
      · cases hb
    · split_ifs
      · exact List.nodup_singleton _
      · exact List.nodup_nil
    · intro e he hgo
      obtain ⟨n, -, hf⟩ := List.mem_filterMap.mp he
      split_ifs at hgo with hc
      · rw [List.mem_singleton] at hgo
        subst hgo
        split_ifs at hf
        simpa using congrArg ScheduledBuffer.buffer (Option.some.inj hf)
      · cases hgo

/-! ## Clock synchronisation: further lemmas and theorems -/

theorem setOffsetSample_lastSyncAt (st : SyncState) (o r a : ℚ) :
    (setOffsetSample st o r a).lastSyncAt = some a := by
  obtain ⟨b, hb, -, -⟩ :=
    bestOf_spec (sliceLast (SYNC_SAMPLE_COUNT - 1) st.syncSamples ++
      [{ offsetMs := o, rttMs := r, atTs := a }]) (by simp)
  simp only [setOffsetSample, hb]

/-- The state after the two samples `(10, 1, 100)` and `(20, 9, 200)`. -/
theorem two_samples_state :
    recordAll SyncState.initial [⟨10, 1, 100⟩, ⟨20, 9, 200⟩] =
      { syncSamples := [⟨10, 1, 100⟩, ⟨20, 9, 200⟩]
        offsetRef := 10
        timeOffsetMs := 10
        bestRttMs := some 1
        lastSyncAt := some 200 } := by
  norm_num [recordAll, setOffsetSample, bestOf, pickMin, sliceLast, SYNC_SAMPLE_COUNT,
    SyncState.initial]

/-- C12: a `TIME_SYNC_RESPONSE` whose payload is missing, or whose `t0`, `t1` or
`t2` is not a finite number, is ignored: the state is returned as it was, so the
sample window (length and contents), the best offset, `bestRttMs` and
`lastSyncAt` are unchanged. -/
theorem malformed_sync_ignored (st : SyncState) (payload : Option SyncPayload) (t3 : ℚ)
    (h : payload = none ∨
      ∃ p, payload = some p ∧ (p.t0 = none ∨ p.t1 = none ∨ p.t2 = none)) :
    handleTimeSyncResponse st payload t3 = st ∧
      (handleTimeSyncResponse st payload t3).syncSamples = st.syncSamples ∧
      (handleTimeSyncResponse st payload t3).syncSamples.length = st.syncSamples.length ∧
      (handleTimeSyncResponse st payload t3).offsetRef = st.offsetRef ∧
      (handleTimeSyncResponse st payload t3).timeOffsetMs = st.timeOffsetMs ∧
      (handleTimeSyncResponse st payload t3).bestRttMs = st.bestRttMs ∧
      (handleTimeSyncResponse st payload t3).lastSyncAt = st.lastSyncAt := by
  have key : handleTimeSyncResponse st payload t3 = st := by
    rcases h with rfl | ⟨p, rfl, hp⟩
    · rfl
    · obtain ⟨t0, t1, t2⟩ := p
      simp only at hp
      rcases hp with rfl | rfl | rfl
      · rfl
      · cases t0 <;> rfl
      · cases t0 <;> cases t1 <;> rfl
  rw [key]
  exact ⟨rfl, rfl, rfl, rfl, rfl, rfl, rfl⟩

/-- C12, a run: after two recorded samples a response whose `t1` is not finite
arrives and leaves the state as it was. -/
theorem malformed_sync_ignored_witness :
    handleTimeSyncResponse (recordAll SyncState.initial [⟨10, 1, 100⟩, ⟨20, 9, 200⟩])
        (some ⟨some 1000, none, some 1060⟩) 1120 =
      { syncSamples := [⟨10, 1, 100⟩, ⟨20, 9, 200⟩]
        offsetRef := 10
        timeOffsetMs := 10
        bestRttMs := some 1
        lastSyncAt := some 200 } :=
  ((malformed_sync_ignored (recordAll SyncState.initial [⟨10, 1, 100⟩, ⟨20, 9, 200⟩])
    (some ⟨some 1000, none, some 1060⟩) 1120
    (Or.inr ⟨⟨some 1000, none, some 1060⟩, rfl, Or.inr (Or.inl rfl)⟩)).1).trans two_samples_state

/-- C13 fails as stated: after the samples `(10, 1, 100)` and `(20, 9, 200)` the
only minimum-RTT sample of the window has `atTs = 100`, and `lastSyncAt` is 200. -/
theorem lastSyncAt_not_of_best_sample :
    ¬ bestFieldsOfOneSample (recordAll SyncState.initial [⟨10, 1, 100⟩, ⟨20, 9, 200⟩]) := by
  rw [two_samples_state]
  rintro ⟨b, hb, hmin, -, -, hlast⟩
  simp only [List.mem_cons, List.mem_singleton, List.not_mem_nil, or_false] at hb
  rcases hb with rfl | rfl
  · norm_num at hlast
  · have := hmin ⟨10, 1, 100⟩ (by simp)
    norm_num at this

/-- C13 as amended: after every `setOffsetSample(offsetMs, rttMs, atTs)` the value
of `lastSyncAt` is the `atTs` just passed, that of the newest sample of the
window, while the best offset and `bestRttMs` are the fields of one
minimum-RTT sample of the window. -/
theorem lastSyncAt_is_newest_sample (st : SyncState) (o r a : ℚ) :
    (setOffsetSample st o r a).lastSyncAt = some a ∧
      (setOffsetSample st o r a).syncSamples.getLast? =
        some { offsetMs := o, rttMs := r, atTs := a } ∧
      ∃ b ∈ (setOffsetSample st o r a).syncSamples,
        (∀ x ∈ (setOffsetSample st o r a).syncSamples, b.rttMs ≤ x.rttMs) ∧
        (setOffsetSample st o r a).offsetRef = b.offsetMs ∧
        (setOffsetSample st o r a).timeOffsetMs = b.offsetMs ∧
        (setOffsetSample st o r a).bestRttMs = some b.rttMs := by
  obtain ⟨hs, b, hb, h1, h2, h3, h4⟩ := setOffsetSample_spec st o r a
  refine ⟨setOffsetSample_lastSyncAt st o r a, ?_, b, hb, h4, h1, h2, h3⟩
  rw [hs]
  simp

/-- C13 as amended, a run: the second sample has the higher round trip; the best
offset stays that of the first and `lastSyncAt` is the `atTs` of the second. -/
theorem lastSyncAt_is_newest_sample_witness :
    (setOffsetSample (recordAll SyncState.initial [⟨10, 1, 100⟩]) 20 9 200).lastSyncAt =
        some 200 ∧
      (setOffsetSample (recordAll SyncState.initial [⟨10, 1, 100⟩]) 20 9 200).offsetRef = 10 :=
  ⟨(lastSyncAt_is_newest_sample (recordAll SyncState.initial [⟨10, 1, 100⟩]) 20 9 200).1,
    by norm_num [recordAll, setOffsetSample, bestOf, pickMin, sliceLast, SYNC_SAMPLE_COUNT,
      SyncState.initial]⟩

/-- C16: when the reference clock is the local clock plus `d` and both network
delays are `a ≥ 0` (`t1 = t0 + a + d`, `t3 = t2 + a - d`), the sample that
`handleTimeSyncResponse` records has offset exactly `d` and round trip exactly
`2 * a`, whatever `t2` is; and when every sample already in the window has
offset `d` (none, in the initial state), the best offset is `d`, so the
corrected clock `Date.now() + offsetRef.current` is the local clock plus `d`. -/
theorem symmetric_exchange_recovers_offset (st : SyncState) (t0 t2 a d : ℚ) (ha : 0 ≤ a) :
    (handleTimeSyncResponse st (some ⟨some t0, some (t0 + a + d), some t2⟩)
        (t2 + a - d)).syncSamples.getLast? =
        some { offsetMs := d, rttMs := 2 * a, atTs := t2 + a - d } ∧
      ((∀ x ∈ st.syncSamples, x.offsetMs = d) →
        (handleTimeSyncResponse st (some ⟨some t0, some (t0 + a + d), some t2⟩)
          (t2 + a - d)).offsetRef = d ∧
        ∀ localNow : ℚ,
          correctedNow
            (handleTimeSyncResponse st (some ⟨some t0, some (t0 + a + d), some t2⟩) (t2 + a - d))
            localNow = localNow + d) := by
  have hoff : ((t0 + a + d - t0) + (t2 - (t2 + a - d))) / 2 = d := by ring
  have hrtt : max 0 ((t2 + a - d - t0) - (t2 - (t0 + a + d))) = 2 * a := by
    have : (t2 + a - d - t0) - (t2 - (t0 + a + d)) = 2 * a := by ring
    rw [this]
    exact max_eq_right (by linarith)
  have heq : handleTimeSyncResponse st (some ⟨some t0, some (t0 + a + d), some t2⟩) (t2 + a - d) =
      setOffsetSample st d (2 * a) (t2 + a - d) := by
    show setOffsetSample st (((t0 + a + d - t0) + (t2 - (t2 + a - d))) / 2)
      (max 0 ((t2 + a - d - t0) - (t2 - (t0 + a + d)))) (t2 + a - d) = _
    rw [hoff, hrtt]
  rw [heq]
  obtain ⟨hs, b, hb, h1, -, -, -⟩ := setOffsetSample_spec st d (2 * a) (t2 + a - d)
  refine ⟨by rw [hs]; simp, ?_⟩
  intro hall
  have hbd : b.offsetMs = d := by
    rw [hs] at hb
    rcases List.mem_append.mp hb with hb | hb
    · exact hall b (List.mem_of_mem_drop hb)
    · rw [List.mem_singleton] at hb
      rw [hb]
  refine ⟨h1.trans hbd, ?_⟩
  intro localNow
  unfold correctedNow
  rw [h1, hbd]

/-- C16, a run: the server clock is 250 ms ahead and each way takes 40 ms; the
exchange started at local 1000 and answered at server 1300 gives offset 250. -/
theorem symmetric_exchange_recovers_offset_witness :
    (0 : ℚ) ≤ 40 ∧
      (handleTimeSyncResponse SyncState.initial
          (some ⟨some 1000, some (1000 + 40 + 250), some 1300⟩)
          (1300 + 40 - 250)).syncSamples.getLast? =
        some { offsetMs := 250, rttMs := 2 * 40, atTs := 1300 + 40 - 250 } ∧
      correctedNow
          (handleTimeSyncResponse SyncState.initial
            (some ⟨some 1000, some (1000 + 40 + 250), some 1300⟩) (1300 + 40 - 250))
          5000 = 5000 + 250 :=
  ⟨by norm_num,
    (symmetric_exchange_recovers_offset SyncState.initial 1000 1300 40 250 (by norm_num)).1,
    ((symmetric_exchange_recovers_offset SyncState.initial 1000 1300 40 250 (by norm_num)).2
      (fun x hx => absurd hx (List.not_mem_nil x))).2 5000⟩

/-! ## The selection under eviction -/

theorem pickMin_self (a : ClockSample) : pickMin a a = a := by
  unfold pickMin
  split_ifs <;> rfl

/-- Appending a sample to a non-empty window compares it with the old best. -/
theorem bestOf_append_singleton {w : List ClockSample} {b : ClockSample} (s : ClockSample)
    (h : bestOf w = some b) : bestOf (w ++ [s]) = some (pickMin b s) := by
  cases w with
  | nil => cases h
  | cons w0 t =>
    simp only [bestOf, Option.some.injEq] at h
    simp only [List.cons_append, bestOf, Option.some.injEq]
    have : List.foldl pickMin w0 (w0 :: (t ++ [s])) =
        pickMin (List.foldl pickMin w0 (w0 :: t)) s := by
      rw [← List.cons_append, List.foldl_append]
      rfl
    rw [this, h]

/-- Two start values give the same fold when the list holds a sample with a
lower round trip than both. -/
theorem foldl_pickMin_congr (t : List ClockSample) :
    ∀ a b : ClockSample, (∃ x ∈ t, x.rttMs < a.rttMs ∧ x.rttMs < b.rttMs) →
      t.foldl pickMin a = t.foldl pickMin b := by
  induction t with
  | nil =>
    rintro a b ⟨x, hx, -⟩
    cases hx
  | cons y t ih =>
    rintro a b ⟨x, hx, hxa, hxb⟩
    simp only [List.foldl_cons]
    by_cases hya : y.rttMs < a.rttMs
    · by_cases hyb : y.rttMs < b.rttMs
      · simp only [pickMin, hya, hyb, if_true]
      · have hx' : x ∈ t := by
          rcases List.mem_cons.mp hx with rfl | hx'
          · exact absurd hxb hyb
          · exact hx'
        have h1 : pickMin a y = y := by simp only [pickMin, hya, if_true]
        have h2 : pickMin b y = b := by simp only [pickMin, hyb, if_false]
        rw [h1, h2]
        exact ih y b ⟨x, hx', lt_of_lt_of_le hxb (not_lt.mp hyb), hxb⟩
    · have hx' : x ∈ t := by
        rcases List.mem_cons.mp hx with rfl | hx'
        · exact absurd hxa hya
        · exact hx'
      have h1 : pickMin a y = a := by simp only [pickMin, hya, if_false]
      rw [h1]
      by_cases hyb : y.rttMs < b.rttMs
      · have h2 : pickMin b y = y := by simp only [pickMin, hyb, if_true]
        rw [h2]
        exact ih a y ⟨x, hx', hxa, lt_of_lt_of_le hxa (not_lt.mp hya)⟩
      · have h2 : pickMin b y = b := by simp only [pickMin, hyb, if_false]
        rw [h2]
        exact ih a b ⟨x, hx', hxa, hxb⟩

/-- Dropping a head that is not the best leaves the best as it was. -/
theorem bestOf_tail_of_head_not_best (h0 : ClockSample) (t : List ClockSample)
    (hlt : (List.foldl pickMin h0 (h0 :: t)).rttMs < h0.rttMs) :
    bestOf t = some (List.foldl pickMin h0 (h0 :: t)) := by
  have hfold : List.foldl pickMin h0 (h0 :: t) = List.foldl pickMin h0 t := by
    simp only [List.foldl_cons, pickMin_self]
  rw [hfold] at hlt ⊢
  have hmem : List.foldl pickMin h0 t ∈ t := by
    rcases (foldl_pickMin_spec t h0).1 with h | h
    · rw [h] at hlt
      exact absurd hlt (lt_irrefl _)
    · exact h
  cases t with
  | nil => cases hmem
  | cons t0 t' =>
    simp only [bestOf, List.foldl_cons, pickMin_self, Option.some.injEq]
    by_cases hc : t0.rttMs < h0.rttMs
    · simp only [pickMin, hc, if_true]
    · have h1 : pickMin h0 t0 = h0 := by simp only [pickMin, hc, if_false]
      rw [h1]
      have hb : List.foldl pickMin h0 (t0 :: t') = List.foldl pickMin h0 t' := by
        simp only [List.foldl_cons, h1]
      rw [hb] at hlt hmem
      have hmem' : List.foldl pickMin h0 t' ∈ t' := by
        rcases List.mem_cons.mp hmem with h | h
        · rw [h] at hlt
          exact absurd hlt hc
        · exact h
      exact foldl_pickMin_congr t' t0 h0
        ⟨_, hmem', lt_of_lt_of_le hlt (not_lt.mp hc), hlt⟩

/-- What `setOffsetSample` leaves in the state, read through `bestOf`. -/
theorem setOffsetSample_bestOf (st : SyncState) (o r a : ℚ) :
    ∃ b, bestOf (setOffsetSample st o r a).syncSamples = some b ∧
      (setOffsetSample st o r a).offsetRef = b.offsetMs ∧
      (setOffsetSample st o r a).timeOffsetMs = b.offsetMs ∧
      (setOffsetSample st o r a).bestRttMs = some b.rttMs := by
  obtain ⟨b, hb, -, -⟩ :=
    bestOf_spec (sliceLast (SYNC_SAMPLE_COUNT - 1) st.syncSamples ++
      [{ offsetMs := o, rttMs := r, atTs := a }]) (by simp)
  have hst : setOffsetSample st o r a =
      { syncSamples := sliceLast (SYNC_SAMPLE_COUNT - 1) st.syncSamples ++
          [{ offsetMs := o, rttMs := r, atTs := a }]
        offsetRef := b.offsetMs
        timeOffsetMs := b.offsetMs
        bestRttMs := some b.rttMs
        lastSyncAt := some a } := by
    simp only [setOffsetSample, hb]
  rw [hst]
  exact ⟨b, hb, rfl, rfl, rfl⟩

/-- After at least one recorded sample the stored best is the best of the window. -/
theorem recordAll_bestOf (hist : List ClockSample) (hne : hist ≠ []) :
    ∃ b, bestOf (recordAll SyncState.initial hist).syncSamples = some b ∧
      (recordAll SyncState.initial hist).offsetRef = b.offsetMs ∧
      (recordAll SyncState.initial hist).timeOffsetMs = b.offsetMs ∧
      (recordAll SyncState.initial hist).bestRttMs = some b.rttMs := by
  induction hist using List.reverseRecOn with
  | nil => exact absurd rfl hne
  | append_singleton pre s _ =>
    rw [recordAll_append_singleton]
    exact setOffsetSample_bestOf _ _ _ _

/-- The state after six samples of which the first has the lowest round trip. -/
theorem six_samples_state :
    recordAll SyncState.initial
        [⟨10, 1, 100⟩, ⟨20, 9, 200⟩, ⟨30, 8, 300⟩, ⟨40, 7, 400⟩, ⟨50, 3, 500⟩, ⟨60, 6, 600⟩] =
      { syncSamples :=
          [⟨10, 1, 100⟩, ⟨20, 9, 200⟩, ⟨30, 8, 300⟩, ⟨40, 7, 400⟩, ⟨50, 3, 500⟩, ⟨60, 6, 600⟩]
        offsetRef := 10
        timeOffsetMs := 10
        bestRttMs := some 1
        lastSyncAt := some 600 } := by
  norm_num [recordAll, setOffsetSample, bestOf, pickMin, sliceLast, SYNC_SAMPLE_COUNT,
    SyncState.initial]

/-- The state after a seventh sample, which evicts the first. -/
theorem seven_samples_state :
    recordAll SyncState.initial
        ([⟨10, 1, 100⟩, ⟨20, 9, 200⟩, ⟨30, 8, 300⟩, ⟨40, 7, 400⟩, ⟨50, 3, 500⟩, ⟨60, 6, 600⟩] ++
          [⟨70, 5, 700⟩]) =
      { syncSamples :=
          [⟨20, 9, 200⟩, ⟨30, 8, 300⟩, ⟨40, 7, 400⟩, ⟨50, 3, 500⟩, ⟨60, 6, 600⟩, ⟨70, 5, 700⟩]
        offsetRef := 50
        timeOffsetMs := 50
        bestRttMs := some 3
        lastSyncAt := some 700 } := by
  norm_num [recordAll, setOffsetSample, bestOf, pickMin, sliceLast, SYNC_SAMPLE_COUNT,
    SyncState.initial]

/-- C15 fails as stated: with a full window whose oldest sample is the best
(round trip 1, offset 10), recording a sample of round trip 5 evicts it; the best
round trip grows from 1 to 3 and the best offset moves from 10 to 50, although the
new round trip is not lower than the previous best. -/
theorem eviction_worsens_selection :
    ¬ onlyImprovesOrIgnored
      (recordAll SyncState.initial
        [⟨10, 1, 100⟩, ⟨20, 9, 200⟩, ⟨30, 8, 300⟩, ⟨40, 7, 400⟩, ⟨50, 3, 500⟩, ⟨60, 6, 600⟩])
      (recordAll SyncState.initial
        ([⟨10, 1, 100⟩, ⟨20, 9, 200⟩, ⟨30, 8, 300⟩, ⟨40, 7, 400⟩, ⟨50, 3, 500⟩, ⟨60, 6, 600⟩] ++
          [⟨70, 5, 700⟩]))
      ⟨70, 5, 700⟩ := by
  rw [six_samples_state, seven_samples_state]
  rintro ⟨h1, -⟩
  have := h1 1 3 rfl rfl
  norm_num at this

theorem sliceLast_of_length_le {α : Type} (k : ℕ) (xs : List α) (h : xs.length ≤ k) :
    sliceLast k xs = xs := by
  unfold sliceLast
  rw [Nat.sub_eq_zero_of_le h]
  rfl

/-- The best of the five samples that stay in the window is the old best when
nothing is evicted, or when the evicted oldest sample has a higher round trip
than the best. -/
theorem bestOf_kept {w : List ClockSample} {b : ClockSample} (hb : bestOf w = some b)
    (hlen : w.length ≤ 6)
    (hev : w.length < 6 ∨ ∃ oldest, w.head? = some oldest ∧ b.rttMs < oldest.rttMs) :
    bestOf (sliceLast 5 w) = some b := by
  by_cases hlt : w.length < 6
  · rw [sliceLast_of_length_le 5 w (by omega)]
    exact hb
  · rcases hev with h | ⟨oldest, hhead, hrtt⟩
    · exact absurd h hlt
    · cases w with
      | nil => cases hhead
      | cons w0 t =>
        simp only [List.head?_cons, Option.some.injEq] at hhead
        subst hhead
        have hlen6 : (w0 :: t).length = 6 := by omega
        have hs : sliceLast 5 (w0 :: t) = t := by
          unfold sliceLast
          rw [hlen6]
          rfl
        rw [hs]
        simp only [bestOf, Option.some.injEq] at hb
        rw [← hb] at hrtt ⊢
        exact bestOf_tail_of_head_not_best w0 t hrtt

/-- C15 as amended: for a state reached by recording at least one sample, if the
window is not yet full, or the oldest sample of the full window (the one to be
evicted) has a higher round trip than `bestRttMs`, then recording a new sample
only improves the selection or is ignored by it: `bestRttMs` does not grow, and
when the new round trip is not lower than the previous best, the best offset
is unchanged. -/
theorem selection_improves_unless_best_evicted (hist : List ClockSample) (s : ClockSample)
    (hne : hist ≠ [])
    (hev : (recordAll SyncState.initial hist).syncSamples.length < 6 ∨
      ∃ oldest r, (recordAll SyncState.initial hist).syncSamples.head? = some oldest ∧
        (recordAll SyncState.initial hist).bestRttMs = some r ∧ r < oldest.rttMs) :
    onlyImprovesOrIgnored (recordAll SyncState.initial hist)
      (recordAll SyncState.initial (hist ++ [s])) s := by
  obtain ⟨b, hb, ho, hto, hr⟩ := recordAll_bestOf hist hne
  have hlen : (recordAll SyncState.initial hist).syncSamples.length ≤ 6 := by
    rw [recordAll_window]
    exact sliceLast_length_le _ _
  have hkept : bestOf (sliceLast 5 (recordAll SyncState.initial hist).syncSamples) = some b := by
    refine bestOf_kept hb hlen ?_
    rcases hev with h | ⟨oldest, r, hhead, hr', hlt⟩
    · exact Or.inl h
    · rw [hr] at hr'
      cases hr'
      exact Or.inr ⟨oldest, hhead, hlt⟩
  rw [recordAll_append_singleton]
  obtain ⟨b', hb', ho', hto', hr'⟩ :=
    setOffsetSample_bestOf (recordAll SyncState.initial hist) s.offsetMs s.rttMs s.atTs
  rw [(setOffsetSample_spec _ _ _ _).1] at hb'
  have hnew := bestOf_append_singleton
    { offsetMs := s.offsetMs, rttMs := s.rttMs, atTs := s.atTs } hkept
  have hb'eq : b' = pickMin b s := by
    have h1 : bestOf (sliceLast (SYNC_SAMPLE_COUNT - 1)
        (recordAll SyncState.initial hist).syncSamples ++
        [{ offsetMs := s.offsetMs, rttMs := s.rttMs, atTs := s.atTs }]) =
        some (pickMin b s) := hnew
    rw [hb'] at h1
    exact Option.some.inj h1
  subst hb'eq
  constructor
  · intro r r' h1 h2
    rw [hr] at h1
    rw [hr'] at h2
    cases h1
    cases h2
    unfold pickMin
    split_ifs with hc
    · exact le_of_lt hc
    · exact le_refl _
  · intro r h1 hle
    rw [hr] at h1
    cases h1
    have hp : pickMin b s = b := by
      unfold pickMin
      rw [if_neg (not_lt.mpr hle)]
    rw [ho', hto', hp, ho, hto]
    exact ⟨rfl, rfl⟩

/-- C15 as amended, a run: the window holds two samples, best round trip 1 with
offset 10; a third sample of round trip 5 is recorded and the selection stays. -/
theorem selection_improves_unless_best_evicted_witness :
    (recordAll SyncState.initial [⟨10, 1, 100⟩, ⟨20, 9, 200⟩]).syncSamples.length < 6 ∧
      onlyImprovesOrIgnored (recordAll SyncState.initial [⟨10, 1, 100⟩, ⟨20, 9, 200⟩])
        (recordAll SyncState.initial ([⟨10, 1, 100⟩, ⟨20, 9, 200⟩] ++ [⟨70, 5, 700⟩]))
        ⟨70, 5, 700⟩ :=
  have h : (recordAll SyncState.initial [⟨10, 1, 100⟩, ⟨20, 9, 200⟩]).syncSamples.length < 6 := by
    rw [two_samples_state]
    decide
  ⟨h, selection_improves_unless_best_evicted [⟨10, 1, 100⟩, ⟨20, 9, 200⟩] ⟨70, 5, 700⟩
    (by simp) (Or.inl h)⟩

/-! ## Rally timing: the row filter -/

theorem computeRows_player_perm {players : List Player} {arrivalAt dur launchAt now : ℚ}
    (h : 0 ≤ arrivalAt - now) :
    ((computeRows players arrivalAt dur launchAt now).map Row.player).Perm players := by
  have hp := (@computeRows_perm players arrivalAt dur launchAt now h).map Row.player
  rw [List.map_map] at hp
  have hid : (Row.player ∘ mkRow arrivalAt dur launchAt now) = id := by
    funext p
    rfl
  rw [hid, List.map_id] at hp
  exact hp

/-- C18: in every derived view `landInMs` is `arrivalAt - now` for every
participant, so the row filter keeps all or none: when `arrivalAt ≥ now` the
rows, read as players, are a permutation of the whole roster, and when
`arrivalAt < now` there are no rows.  Hence in phase `JOIN` or `MARCH` no roster
participant is missing from the rows, and in phase `LANDED` the rows are
non-empty only at the instant `now = arrivalAt`. -/
theorem row_filter_all_or_nothing (state : AppState) (now delay : ℚ) (view : RallyView)
    (h : rallyComputed state now delay = some view) :
    (∀ (p : Player) (dur launchAt : ℚ),
        (mkRow view.arrivalAt dur launchAt now p).landInMs = view.arrivalAt - now) ∧
      (∀ r ∈ view.rows, r.landInMs = view.arrivalAt - now) ∧
      (now ≤ view.arrivalAt → (view.rows.map Row.player).Perm state.players) ∧
      (view.arrivalAt < now → view.rows = []) ∧
      (view.phase = Phase.JOIN ∨ view.phase = Phase.MARCH →
        (view.rows.map Row.player).Perm state.players) ∧
      (view.phase = Phase.LANDED → view.rows ≠ [] → now = view.arrivalAt) := by
  obtain ⟨rally, starter, -, -, -, -, -, -, -, hp, hrows⟩ := rallyComputed_inv h
  have hall : now ≤ view.arrivalAt → (view.rows.map Row.player).Perm state.players := by
    intro hle
    rw [hrows]
    exact computeRows_player_perm (by linarith)
  have hnone : view.arrivalAt < now → view.rows = [] := by
    intro hlt
    rw [hrows]
    exact computeRows_of_landed (by linarith)
  refine ⟨fun _ _ _ => rfl, ?_, hall, hnone, ?_, ?_⟩
  · intro r hr
    rw [hrows] at hr
    obtain ⟨-, p, -, rfl⟩ := mem_computeRows.mp hr
    rfl
  · intro hph
    apply hall
    by_contra hlt
    have hle : view.arrivalAt ≤ now := le_of_lt (lt_of_not_ge hlt)
    rw [if_pos hle] at hp
    rcases hph with h1 | h1 <;> rw [hp] at h1 <;> cases h1
  · intro _ hne
    by_contra hneq
    have hle : view.arrivalAt ≤ now := by
      by_contra hgt
      rw [if_neg hgt] at hp
      split_ifs at hp <;> simp_all
    exact hne (hnone (lt_of_le_of_ne hle (fun e => hneq e.symm)))

/-- C18, a run: the two-player scenario exactly at the arrival instant is
`LANDED` and still shows both rows. -/
theorem row_filter_all_or_nothing_witness :
    rallyComputed (scenarioState 1000000 "Ann" "Bob") 1060000 5 =
        some
          { starter := { id := "A", name := "Ann", marchMs := 60000 }
            launchAt := 1000000
            rallyStartAt := 1000000 - 300000
            arrivalAt := 1000000 + 60000
            rows := scenarioRows 1000000 1060000 "Ann" "Bob"
            joinRemainingMs := 1000000 - 1060000
            phase := Phase.LANDED } ∧
      ((1060000 : ℚ) ≤ 1000000 + 60000 →
        ((scenarioRows 1000000 1060000 "Ann" "Bob").map Row.player).Perm
          (scenarioState 1000000 "Ann" "Bob").players) :=
  have h : rallyComputed (scenarioState 1000000 "Ann" "Bob") 1060000 5 =
      some
        { starter := { id := "A", name := "Ann", marchMs := 60000 }
          launchAt := 1000000
          rallyStartAt := 1000000 - 300000
          arrivalAt := 1000000 + 60000
          rows := scenarioRows 1000000 1060000 "Ann" "Bob"
          joinRemainingMs := 1000000 - 1060000
          phase := Phase.LANDED } := by
    rw [scenario_view, scenario_computeRows _ _ _ _ (by norm_num)]
    norm_num
  ⟨h, (row_filter_all_or_nothing _ _ _ _ h).2.2.1⟩

/-! ## Announcements: where a call comes from -/

/-- A call whose key is a march key was made in phase `MARCH` for the row's `startAt`. -/
theorem targetFor_march {s : AnnounceSettings} {phase : Phase} {r : Row} {t : ℚ}
    {k : AnnouncementKey} (h : targetFor s phase r = some (t, k)) (hk : k.kind = CueKind.march) :
    phase = Phase.MARCH ∧ t = r.startAt := by
  unfold targetFor at h
  split_ifs at h with h1 h2 <;> simp only [Option.some.injEq, Prod.mk.injEq] at h
  · obtain ⟨-, rfl⟩ := h
    cases hk
  · obtain ⟨rfl, -⟩ := h
    exact ⟨h2.1, rfl⟩

/-- One iteration that is not skipped by the selection filter is for a selected
row or runs with nothing selected. -/
theorem announceRow_step_selected (s : AnnounceSettings) (phase : Phase) (now : ℚ)
    (acc : AnnounceAcc) (r : Row) (hsel : s.selectedIds ≠ []) (hr : r.id ∉ s.selectedIds) :
    announceRow s phase now acc r = acc := by
  unfold announceRow
  rw [if_pos]
  refine ⟨?_, hr⟩
  unfold effectiveOnlySelected
  simpa [List.length_pos] using hsel

/-- Every call of a loop over `rows` that was not in the accumulator before comes
from one of the rows, through `targetFor`, with its target inside the window. -/
theorem foldl_announceRow_origin (s : AnnounceSettings) (phase : Phase) (now : ℚ)
    (Q : Cue → Prop) (rows : List Row)
    (hQ : ∀ r ∈ rows, ∀ t k, targetFor s phase r = some (t, k) →
      (s.selectedIds ≠ [] → r.id ∈ s.selectedIds) →
      t - now ≤ 5200 → t - now > 600 →
      Q { key := k, playerName := r.name, targetTs := t, nowTs := now,
          ttsVolume := s.ttsVolume, gainFactor := s.beepGainFactor }) :
    ∀ acc : AnnounceAcc, (∀ c ∈ acc.cues, Q c) →
      ∀ c ∈ (rows.foldl (announceRow s phase now) acc).cues, Q c := by
  induction rows with
  | nil => intro acc h; exact h
  | cons r rs ih =>
    intro acc hacc
    rw [List.foldl_cons]
    refine ih (fun r' hr' => hQ r' (List.mem_cons_of_mem _ hr')) _ ?_
    rcases announceRow_step s phase now acc r with heq | ⟨t, k, htf, -, hle, hgt, heq⟩
    · rw [heq]
      exact hacc
    · intro c hc
      rw [heq] at hc
      rcases List.mem_append.mp hc with hc | hc
      · exact hacc c hc
      · rw [List.mem_singleton] at hc
        subst hc
        refine hQ r (List.mem_cons_self _ _) t k htf ?_ hle hgt
        intro hsel
        by_contra hnot
        have hskip := announceRow_step_selected s phase now acc r hsel hnot
        rw [heq] at hskip
        have := congrArg (fun a => a.cues.length) hskip
        simp at this

/-- Every call of one run of the effect comes from a row of the view. -/
theorem effect_cue_origin (s : AnnounceSettings) (view : Option RallyView) (now : ℚ)
    (announced : List AnnouncementKey) :
    ∀ c ∈ (announcementEffect s view now announced).cues,
      ∃ v r, view = some v ∧ r ∈ v.rows ∧ targetFor s v.phase r = some (c.targetTs, c.key) ∧
        (s.selectedIds ≠ [] → r.id ∈ s.selectedIds) ∧
        c.playerName = r.name ∧ c.nowTs = now ∧ c.gainFactor = s.beepGainFactor ∧
        c.targetTs - now ≤ 5200 ∧ c.targetTs - now > 600 := by
  unfold announcementEffect
  split_ifs
  · intro c hc
    cases hc
  · cases view with
    | none =>
      intro c hc
      cases hc
    | some v =>
      refine foldl_announceRow_origin s v.phase now _ v.rows ?_ _ ?_
      · intro r hr t k htf hsel hle hgt
        exact ⟨v, r, rfl, hr, htf, hsel, rfl, rfl, rfl, hle, hgt⟩
      · intro c hc
        cases hc

/-! ## Announcements: further theorems -/

/-- C17: when the rally descriptor carries no `arrivalAt`, a march call made by a
run of the effect on the view derived at the same `now` comes from a roster
player whose `marchMs` is more than 600 ms shorter than the starter's; and the
`startAt` of a player whose march is at least as long as the starter's (the
starter among them) is the target of no march call, because that `startAt` is
not after `launchAt` and march calls are made only when `launchAt ≤ now`. -/
theorem march_cue_needs_shorter_march (state : AppState) (now delay : ℚ)
    (s : AnnounceSettings) (announced : List AnnouncementKey) (rally : Rally) (starter : Player)
    (hr : state.rally = some rally) (ha : rally.arrivalAt = none)
    (hs : state.players.find? (fun p => decide (p.id = rally.starterId)) = some starter) :
    ∀ c ∈ (announcementEffect s (rallyComputed state now delay) now announced).cues,
      c.key.kind = CueKind.march →
        rally.launchAt ≤ now ∧
        (∃ p ∈ state.players, p.id = c.key.id ∧ p.name = c.playerName ∧
          c.targetTs = rally.launchAt + starter.marchMs - p.marchMs ∧
          p.marchMs + 600 < starter.marchMs) ∧
        ∀ p ∈ state.players, starter.marchMs ≤ p.marchMs →
          c.targetTs ≠ rally.launchAt + starter.marchMs - p.marchMs := by
  intro c hc hkind
  obtain ⟨v, r, hv, hrow, htf, -, hname, -, -, -, hgt⟩ := effect_cue_origin _ _ _ _ c hc
  obtain ⟨rally', starter', hr', hs', -, -, harr, -, -, hp, hrows⟩ := rallyComputed_inv hv
  rw [hr] at hr'
  cases hr'
  rw [hs] at hs'
  cases hs'
  rw [ha] at harr
  simp only [Option.getD_none] at harr
  obtain ⟨hphase, ht⟩ := targetFor_march htf hkind
  have hlaunch : rally.launchAt ≤ now := by
    rw [hphase] at hp
    by_contra hlt
    have hj : rally.launchAt - now > 0 := by linarith [lt_of_not_ge hlt]
    split_ifs at hp
  rw [hrows] at hrow
  obtain ⟨-, p, hpmem, rfl⟩ := mem_computeRows.mp hrow
  have hstart : c.targetTs = rally.launchAt + starter.marchMs - p.marchMs := by
    rw [ht, ← harr]
    rfl
  refine ⟨hlaunch, ⟨p, hpmem, ?_, hname.symm, hstart, ?_⟩, ?_⟩
  · exact (targetFor_key htf).2.symm
  · linarith
  · intro q _ hq heq
    linarith

/-- C17, a run: in the two-player scenario 5 s before `B` must march, `B` (30 s,
against the starter's 60 s) gets the only march call. -/
theorem march_cue_needs_shorter_march_witness :
    (announcementEffect scenarioSettings
        (rallyComputed (scenarioState 1000000 "Ann" "Bob") 1025000 5) 1025000
        [{ kind := CueKind.rally, id := "B", targetTs := 730000 }]).cues.map Cue.key =
        [{ kind := CueKind.march, id := "B", targetTs := 1030000 }] ∧
      ∀ c ∈ (announcementEffect scenarioSettings
          (rallyComputed (scenarioState 1000000 "Ann" "Bob") 1025000 5) 1025000
          [{ kind := CueKind.rally, id := "B", targetTs := 730000 }]).cues,
        c.key.kind = CueKind.march →
          (1000000 : ℚ) ≤ 1025000 ∧
          (∃ p ∈ (scenarioState 1000000 "Ann" "Bob").players,
            p.id = c.key.id ∧ p.name = c.playerName ∧
            c.targetTs = 1000000 + 60000 - p.marchMs ∧ p.marchMs + 600 < 60000) ∧
          ∀ p ∈ (scenarioState 1000000 "Ann" "Bob").players, (60000 : ℚ) ≤ p.marchMs →
            c.targetTs ≠ 1000000 + 60000 - p.marchMs :=
  ⟨by rw [scenario_effect_march]; rfl,
    march_cue_needs_shorter_march (scenarioState 1000000 "Ann" "Bob") 1025000 5
      scenarioSettings [{ kind := CueKind.rally, id := "B", targetTs := 730000 }]
      { starterId := "A", launchAt := 1000000, rallyDurationMs := some 300000, arrivalAt := none }
      { id := "A", name := "Ann", marchMs := 60000 } rfl rfl (by simp [scenarioState])⟩

/-- C14: the selection filter tests `selectedIds.length > 0`, not whether a roster
player is selected.  With a non-empty selection every call is for a selected
id.  But in the two-player scenario with only the id `"Z"` of no roster player
selected, 3000 ms before `B` must start the rally, the run makes no call and
marks no key, while with nothing selected the same run calls `B`. -/
theorem stale_selection_silences_all :
    (∀ (s : AnnounceSettings) (view : Option RallyView) (now : ℚ)
        (announced : List AnnouncementKey), s.selectedIds ≠ [] →
        ∀ c ∈ (announcementEffect s view now announced).cues, c.key.id ∈ s.selectedIds) ∧
      (∀ p ∈ (scenarioState 1000000 "Ann" "Bob").players,
        p.id ∉ staleSelectionSettings.selectedIds) ∧
      announcementEffect staleSelectionSettings
          (rallyComputed (scenarioState 1000000 "Ann" "Bob") 727000 5) 727000 [] =
        { announced := [], cues := [] } ∧
      (announcementEffect scenarioSettings
          (rallyComputed (scenarioState 1000000 "Ann" "Bob") 727000 5) 727000 []).cues.map
        Cue.playerName = ["Bob"] := by
  refine ⟨?_, ?_, ?_, ?_⟩
  · intro s view now announced hsel c hc
    obtain ⟨v, r, -, -, htf, hin, -, -, -, -, -⟩ := effect_cue_origin s view now announced c hc
    rw [(targetFor_key htf).2]
    exact hin hsel
  · intro p hp
    simp only [scenarioState, List.mem_cons, List.mem_singleton, List.not_mem_nil,
      or_false] at hp
    rcases hp with rfl | rfl <;> simp [staleSelectionSettings, scenarioSettings]
  · rw [scenario_view, scenario_computeRows _ _ _ _ (by norm_num)]
    norm_num [announcementEffect, announceRow, targetFor, effectiveOnlySelected,
      staleSelectionSettings, scenarioSettings, scenarioRows, triggerMs]
    decide
  · rw [scenario_effect_join]
    rfl

/-! ## Countdown audio: failed preload and the trigger window -/

theorem preloadCountdownSounds_started (o : LoadOutcome) (m : AudioModule)
    (h : m.loadStarted = true) : preloadCountdownSounds o m = m := by
  unfold preloadCountdownSounds
  rw [if_pos (Or.inr h)]

theorem preloadAll_started (outcomes : List LoadOutcome) :
    ∀ m : AudioModule, m.loadStarted = true → preloadAll m outcomes = m := by
  induction outcomes with
  | nil => intro m _; rfl
  | cons o os ih =>
    intro m h
    show preloadAll (preloadCountdownSounds o m) os = m
    rw [preloadCountdownSounds_started o m h]
    exact ih m h

theorem preload_rejected_fresh (t : ℚ) :
    preloadCountdownSounds LoadOutcome.rejected (freshModule t) =
      { env := { currentTime := some t, countdownBuffers := none }, loadStarted := true } := by
  simp [preloadCountdownSounds, freshModule]

/-- C11 fails as stated: after a rejected preload, a countdown call with the
target 3000 ms ahead hands no sound at all to the audio context, so no
synthesized tone; the unused `scheduleBeepsToTarget` would have scheduled
tones for the same arguments. -/
theorem failed_preload_schedules_no_tone :
    countdownCalls (preloadCountdownSounds LoadOutcome.rejected (freshModule 10)).env
        730000 727000 (7 / 10) = [] ∧
      (¬ ∃ t : Tone, AudioCall.tone t ∈
        countdownCalls (preloadCountdownSounds LoadOutcome.rejected (freshModule 10)).env
          730000 727000 (7 / 10)) ∧
      scheduleBeepsToTarget (preloadCountdownSounds LoadOutcome.rejected (freshModule 10)).env
        730000 727000 (7 / 10) ≠ [] := by
  rw [preload_rejected_fresh]
  have h : countdownCalls { currentTime := some 10, countdownBuffers := none }
      730000 727000 (7 / 10) = [] := rfl
  refine ⟨h, ?_, ?_⟩
  · rw [h]
    rintro ⟨t, ht⟩
    cases ht
  · simp [scheduleBeepsToTarget]

/-- C11 as amended: after a preload that failed, whatever further preload calls
follow, the buffers stay `null` and every `scheduleCountdownToTarget` call, at
any reading of the audio clock, returns normally and schedules nothing: no
buffer and no synthesized tone. -/
theorem failed_preload_schedules_nothing (t : ℚ) (later : List LoadOutcome)
    (currentTime : Option ℚ) (targetTs nowTs gainFactor : ℚ) :
    (preloadAll (preloadCountdownSounds LoadOutcome.rejected (freshModule t))
        later).env.countdownBuffers = none ∧
      scheduleCountdownToTarget
        { (preloadAll (preloadCountdownSounds LoadOutcome.rejected (freshModule t)) later).env
          with currentTime := currentTime } targetTs nowTs gainFactor = [] ∧
      countdownCalls
        { (preloadAll (preloadCountdownSounds LoadOutcome.rejected (freshModule t)) later).env
          with currentTime := currentTime } targetTs nowTs gainFactor = [] := by
  rw [preload_rejected_fresh, preloadAll_started later _ rfl]
  have h : scheduleCountdownToTarget
      { currentTime := currentTime, countdownBuffers := none } targetTs nowTs gainFactor = [] := by
    unfold scheduleCountdownToTarget
    cases currentTime <;> rfl
  refine ⟨rfl, h, ?_⟩
  unfold countdownCalls
  simp only [h, List.map_nil]

/-- With the assets loaded, the numbered cue `n` is among the scheduled buffers
exactly when `base - n` passes the guard, and then at the time `base - n`, all
in double arithmetic. -/
theorem numbered_scheduled_iff (audioNow targetTs nowTs gainFactor : ℚ) (n : ℕ)
    (hn : n ∈ [5, 4, 3, 2, 1]) :
    ((∃ e ∈ scheduleCountdownToTarget
          { currentTime := some audioNow, countdownBuffers := some loadedBuffers }
          targetTs nowTs gainFactor, e.buffer = some (AudioBuffer.countdown n)) ↔
        fsub (fadd audioNow (max 0 (fdiv (fsub targetTs nowTs) 1000))) (n : ℚ) ≥
          fadd audioNow (roundDouble (2 / 100))) ∧
      ∀ e ∈ scheduleCountdownToTarget
          { currentTime := some audioNow, countdownBuffers := some loadedBuffers }
          targetTs nowTs gainFactor, e.buffer = some (AudioBuffer.countdown n) →
        e.timeSec = fsub (fadd audioNow (max 0 (fdiv (fsub targetTs nowTs) 1000))) (n : ℚ) := by
  have hcases : ∀ e ∈ scheduleCountdownToTarget
      { currentTime := some audioNow, countdownBuffers := some loadedBuffers }
      targetTs nowTs gainFactor, e.buffer = some (AudioBuffer.countdown n) →
      fsub (fadd audioNow (max 0 (fdiv (fsub targetTs nowTs) 1000))) (n : ℚ) ≥
          fadd audioNow (roundDouble (2 / 100)) ∧
        e.timeSec = fsub (fadd audioNow (max 0 (fdiv (fsub targetTs nowTs) 1000))) (n : ℚ) := by
    intro e he hbuf
    rw [scheduleCountdownToTarget_loaded] at he
    rcases List.mem_append.mp he with he | he
    · obtain ⟨m, -, hf⟩ := List.mem_filterMap.mp he
      split_ifs at hf with hc
      have he' := Option.some.inj hf
      subst he'
      simp only [Option.some.injEq, AudioBuffer.countdown.injEq] at hbuf
      subst hbuf
      exact ⟨hc, rfl⟩
    · split_ifs at he
      · rw [List.mem_singleton] at he
        subst he
        simp at hbuf
      · cases he
  constructor
  · constructor
    · rintro ⟨e, he, hbuf⟩
      exact (hcases e he hbuf).1
    · intro hc
      refine ⟨{ buffer := some (AudioBuffer.countdown n)
                timeSec := fsub (fadd audioNow (max 0 (fdiv (fsub targetTs nowTs) 1000))) (n : ℚ)
                gain := gainFactor }, ?_, rfl⟩
      rw [scheduleCountdownToTarget_loaded]
      apply List.mem_append_left
      exact List.mem_filterMap.mpr ⟨n, hn, by rw [if_pos hc]⟩
  · intro e he hbuf
    exact (hcases e he hbuf).2

/-- With the assets loaded, the go cue is scheduled when `base` passes the guard,
and only at the time `base`. -/
theorem go_scheduled (audioNow targetTs nowTs gainFactor : ℚ) :
    (fadd audioNow (max 0 (fdiv (fsub targetTs nowTs) 1000)) ≥
          fadd audioNow (roundDouble (2 / 100)) →
        { buffer := some AudioBuffer.go
          timeSec := fadd audioNow (max 0 (fdiv (fsub targetTs nowTs) 1000))
          gain := fmul gainFactor GO_GAIN_FACTOR } ∈
          scheduleCountdownToTarget
            { currentTime := some audioNow, countdownBuffers := some loadedBuffers }
            targetTs nowTs gainFactor) ∧
      ∀ e ∈ scheduleCountdownToTarget
          { currentTime := some audioNow, countdownBuffers := some loadedBuffers }
          targetTs nowTs gainFactor, e.buffer = some AudioBuffer.go →
        e.timeSec = fadd audioNow (max 0 (fdiv (fsub targetTs nowTs) 1000)) := by
  rw [scheduleCountdownToTarget_loaded]
  constructor
  · intro hc
    apply List.mem_append_right
    rw [if_pos hc]
    exact List.mem_singleton_self _
  · intro e he hbuf
    rcases List.mem_append.mp he with he | he
    · obtain ⟨m, -, hf⟩ := List.mem_filterMap.mp he
      split_ifs at hf with hc
      have he' := Option.some.inj hf
      subst he'
      simp at hbuf
    · split_ifs at he
      · rw [List.mem_singleton] at he
        subst he
        rfl
      · cases he

/-! ## Countdown audio: the boundary of the guard -/

theorem one_le_fsub {a b : ℚ} (h : 1 ≤ a - b) : 1 ≤ fsub a b := by
  have := roundDouble_mono h
  rwa [roundDouble_one] at this

/-- The value of `base` when the audio clock reads 0 and the target is 5020 ms ahead. -/
theorem boundary_base :
    fadd 0 (max 0 (fdiv (fsub 5020 0) 1000)) = 1413004383087493 / 281474976710656 := by
  rw [fsub_5020_0, fdiv_5020_1000, max_eq_right (by norm_num), fadd_0_s0]

/-- The value of `startTime` when the audio clock reads 0. -/
theorem boundary_start :
    fadd 0 (roundDouble (2 / 100)) = 5764607523034235 / 288230376151711744 := by
  rw [roundDouble_2_100, fadd_0_c]

/-- At the boundary `targetTs - nowTs = 5020` with the audio clock at 0 the guard
of the cue 5 fails. -/
theorem boundary_guard_fails :
    ¬ fsub (fadd 0 (max 0 (fdiv (fsub 5020 0) 1000))) ((5 : ℕ) : ℚ) ≥
      fadd 0 (roundDouble (2 / 100)) := by
  rw [boundary_base, boundary_start]
  have h5 : ((5 : ℕ) : ℚ) = 5 := by norm_num
  rw [h5, fsub_s0_5]
  norm_num

/-- The buffers scheduled at that boundary: 4, 3, 2, 1 and go, without 5. -/
theorem boundary_buffers (gainFactor : ℚ) :
    (scheduleCountdownToTarget
        { currentTime := some 0, countdownBuffers := some loadedBuffers }
        5020 0 gainFactor).map ScheduledBuffer.buffer =
      [some (AudioBuffer.countdown 4), some (AudioBuffer.countdown 3),
        some (AudioBuffer.countdown 2), some (AudioBuffer.countdown 1), some AudioBuffer.go] := by
  have h5 := boundary_guard_fails
  rw [scheduleCountdownToTarget_loaded]
  rw [boundary_base, boundary_start] at h5 ⊢
  have hc : (5764607523034235 / 288230376151711744 : ℚ) ≤ 1 := by norm_num
  have h4 : fsub (1413004383087493 / 281474976710656) ((4 : ℕ) : ℚ) ≥
      5764607523034235 / 288230376151711744 := le_trans hc (one_le_fsub (by norm_num))
  have h3 : fsub (1413004383087493 / 281474976710656) ((3 : ℕ) : ℚ) ≥
      5764607523034235 / 288230376151711744 := le_trans hc (one_le_fsub (by norm_num))
  have h2 : fsub (1413004383087493 / 281474976710656) ((2 : ℕ) : ℚ) ≥
      5764607523034235 / 288230376151711744 := le_trans hc (one_le_fsub (by norm_num))
  have h1 : fsub (1413004383087493 / 281474976710656) ((1 : ℕ) : ℚ) ≥
      5764607523034235 / 288230376151711744 := le_trans hc (one_le_fsub (by norm_num))
  have hgo : (1413004383087493 / 281474976710656 : ℚ) ≥
      5764607523034235 / 288230376151711744 := by norm_num
  simp only [List.filterMap_cons, List.filterMap_nil, if_neg h5, if_pos h4, if_pos h3,
    if_pos h2, if_pos h1, if_pos hgo, List.cons_append, List.nil_append, List.map_cons,
    List.map_nil]

/-- C10, a run: the audio clock reads 0 and the target is 5020 ms ahead.  In
doubles `base - 5` falls just below the guard, so the cue 5 is not scheduled;
the cues 4, 3, 2, 1 and go are, each once. -/
theorem countdown_schedule_witness :
    (scheduleCountdownToTarget
        { currentTime := some 0, countdownBuffers := some loadedBuffers }
        5020 0 (1 / 2)).map ScheduledBuffer.buffer =
        [some (AudioBuffer.countdown 4), some (AudioBuffer.countdown 3),
          some (AudioBuffer.countdown 2), some (AudioBuffer.countdown 1), some AudioBuffer.go] ∧
      (scheduleCountdownToTarget
        { currentTime := some 0, countdownBuffers := some loadedBuffers }
        5020 0 (1 / 2)).Nodup :=
  ⟨boundary_buffers (1 / 2), (countdown_schedule 0 5020 0 (1 / 2)).2⟩

/-- C19 fails as stated: with the audio clock at 0 and `msLeft = 5020`, inside the
trigger window and not below `1000 * 5 + 20`, the cue 5 is not scheduled: in
doubles `5.02 - 5` is below `0.02`. -/
theorem boundary_cue_dropped :
    (600 : ℚ) < 5020 - 0 ∧ (5020 : ℚ) - 0 ≤ 5200 ∧ (5020 : ℚ) - 0 ≥ 1000 * ((5 : ℕ) : ℚ) + 20 ∧
      ¬ ∃ e ∈ scheduleCountdownToTarget
          { currentTime := some 0, countdownBuffers := some loadedBuffers }
          5020 0 (1 / 2), e.buffer = some (AudioBuffer.countdown 5) := by
  refine ⟨by norm_num, by norm_num, by norm_num, ?_⟩
  intro h
  exact boundary_guard_fails ((numbered_scheduled_iff 0 5020 0 (1 / 2) 5 (by simp)).1.mp h)

/-! ## Countdown audio: inside the trigger window -/

/-- Inside the trigger window the seconds until the target, as the code computes
them, are positive, within a microsecond of `(targetTs - nowTs) / 1000`, and
not below the double of `0.02`, which is within half a microsecond of `1 / 50`. -/
theorem seconds_in_window (targetTs nowTs : ℚ) (hlo : 600 < targetTs - nowTs)
    (hhi : targetTs - nowTs ≤ 5200) :
    max 0 (fdiv (fsub targetTs nowTs) 1000) = fdiv (fsub targetTs nowTs) 1000 ∧
      |fdiv (fsub targetTs nowTs) 1000 - (targetTs - nowTs) / 1000| ≤ 6 / 10000000 ∧
      |roundDouble (2 / 100) - 1 / 50| ≤ 1 / 2000000 ∧
      roundDouble (2 / 100) ≤ fdiv (fsub targetTs nowTs) 1000 := by
  have hd := abs_le.mp (@roundDouble_close (targetTs - nowTs)
    (abs_lt.mpr ⟨by linarith, by linarith⟩))
  have hs := abs_le.mp (@roundDouble_close (roundDouble (targetTs - nowTs) / 1000)
    (abs_lt.mpr ⟨by linarith [hd.1], by linarith [hd.2]⟩))
  have hc := abs_le.mp (@roundDouble_close (2 / 100) (by norm_num [abs_lt]))
  have hs0 : |fdiv (fsub targetTs nowTs) 1000 - (targetTs - nowTs) / 1000| ≤ 6 / 10000000 := by
    unfold fdiv fsub
    rw [abs_le]
    constructor <;> linarith [hd.1, hd.2, hs.1, hs.2]
  have hs0' := abs_le.mp hs0
  refine ⟨max_eq_right (by linarith [hs0'.1]), hs0, ?_, ?_⟩
  · rw [abs_le]
    constructor <;> linarith [hc.1, hc.2]
  · linarith [hs0'.1, hc.2]

/-- For an audio clock below `2 ^ 32` seconds, inside the trigger window, the
difference between `base - n` and `startTime`, as the code computes them, is
within three microseconds of `(targetTs - nowTs) / 1000 - n - 1 / 50`; and
`base` is within two microseconds of `audioNow + (targetTs - nowTs) / 1000`. -/
theorem guard_close (audioNow targetTs nowTs : ℚ) (n : ℕ) (hn : n ≤ 5)
    (hlo : 600 < targetTs - nowTs) (hhi : targetTs - nowTs ≤ 5200)
    (hA0 : 0 ≤ audioNow) (hA1 : audioNow < 4294967296) :
    |fadd audioNow (fdiv (fsub targetTs nowTs) 1000) -
        (audioNow + (targetTs - nowTs) / 1000)| ≤ 2 / 1000000 ∧
      |(fsub (fadd audioNow (fdiv (fsub targetTs nowTs) 1000)) (n : ℚ) -
          fadd audioNow (roundDouble (2 / 100))) -
        ((targetTs - nowTs) / 1000 - (n : ℚ) - 1 / 50)| ≤ 3 / 1000000 := by
  obtain ⟨-, hs0, hc, -⟩ := seconds_in_window targetTs nowTs hlo hhi
  have hs0' := abs_le.mp hs0
  have hc' := abs_le.mp hc
  have hn0 : (0 : ℚ) ≤ (n : ℚ) := Nat.cast_nonneg n
  have hn5 : (n : ℚ) ≤ 5 := by exact_mod_cast hn
  have hb := abs_le.mp (@roundDouble_close (audioNow + fdiv (fsub targetTs nowTs) 1000)
    (abs_lt.mpr ⟨by linarith [hs0'.1], by linarith [hs0'.2]⟩))
  have hst := abs_le.mp (@roundDouble_close (audioNow + roundDouble (2 / 100))
    (abs_lt.mpr ⟨by linarith [hc'.1], by linarith [hc'.2]⟩))
  have hb' : roundDouble (audioNow + fdiv (fsub targetTs nowTs) 1000) =
      fadd audioNow (fdiv (fsub targetTs nowTs) 1000) := rfl
  have hst' : roundDouble (audioNow + roundDouble (2 / 100)) =
      fadd audioNow (roundDouble (2 / 100)) := rfl
  rw [hb'] at hb
  rw [hst'] at hst
  have ht := abs_le.mp (@roundDouble_close
    (fadd audioNow (fdiv (fsub targetTs nowTs) 1000) - (n : ℚ))
    (abs_lt.mpr ⟨by linarith [hb.1, hs0'.1], by linarith [hb.2, hs0'.2]⟩))
  have ht' : roundDouble (fadd audioNow (fdiv (fsub targetTs nowTs) 1000) - (n : ℚ)) =
      fsub (fadd audioNow (fdiv (fsub targetTs nowTs) 1000)) (n : ℚ) := rfl
  rw [ht'] at ht
  constructor
  · rw [abs_le]
    constructor <;> linarith [hb.1, hb.2, hs0'.1, hs0'.2]
  · rw [abs_le]
    constructor <;>
      linarith [hb.1, hb.2, hs0'.1, hs0'.2, hst.1, hst.2, hc'.1, hc'.2, ht.1, ht.2]

/-- Inside the trigger window, for an audio clock below `2 ^ 32` seconds, the cue
`n` is scheduled when the target is at least `1000 * n + 20.5` ms ahead and is
not scheduled when it is at most `1000 * n + 19.5` ms ahead. -/
theorem numbered_scheduled_margin (audioNow targetTs nowTs gainFactor : ℚ) (n : ℕ)
    (hn : n ∈ [1, 2, 3, 4, 5])
    (hlo : 600 < targetTs - nowTs) (hhi : targetTs - nowTs ≤ 5200)
    (hA0 : 0 ≤ audioNow) (hA1 : audioNow < 4294967296) :
    (targetTs - nowTs ≥ 1000 * (n : ℚ) + 20 + 1 / 2 →
        ∃ e ∈ scheduleCountdownToTarget
          { currentTime := some audioNow, countdownBuffers := some loadedBuffers }
          targetTs nowTs gainFactor, e.buffer = some (AudioBuffer.countdown n)) ∧
      (targetTs - nowTs ≤ 1000 * (n : ℚ) + 20 - 1 / 2 →
        ¬ ∃ e ∈ scheduleCountdownToTarget
          { currentTime := some audioNow, countdownBuffers := some loadedBuffers }
          targetTs nowTs gainFactor, e.buffer = some (AudioBuffer.countdown n)) := by
  have hn' : n ∈ [5, 4, 3, 2, 1] := by
    simp only [List.mem_cons, List.mem_singleton, List.not_mem_nil, or_false] at hn ⊢
    omega
  have hn5 : n ≤ 5 := by
    simp only [List.mem_cons, List.mem_singleton, List.not_mem_nil, or_false] at hn
    omega
  obtain ⟨hmax, -, -, -⟩ := seconds_in_window targetTs nowTs hlo hhi
  have hiff := (numbered_scheduled_iff audioNow targetTs nowTs gainFactor n hn').1
  rw [hmax] at hiff
  have hg := abs_le.mp (guard_close audioNow targetTs nowTs n hn5 hlo hhi hA0 hA1).2
  constructor
  · intro h
    apply hiff.mpr
    show fadd audioNow (roundDouble (2 / 100)) ≤
      fsub (fadd audioNow (fdiv (fsub targetTs nowTs) 1000)) (n : ℚ)
    linarith [hg.1]
  · intro h hex
    have hge : fadd audioNow (roundDouble (2 / 100)) ≤
        fsub (fadd audioNow (fdiv (fsub targetTs nowTs) 1000)) (n : ℚ) := hiff.mp hex
    linarith [hg.2]

/-- C19 as amended: with audio available and the assets loaded, for every
`msLeft = targetTs - nowTs` inside the trigger window (`600 < msLeft ≤ 5200`)
and every reading of the audio clock, `scheduleCountdownToTarget` schedules the
go cue, at the double `audioNow + msLeft / 1000` and nowhere else, and schedules
the numbered cue `n` (for `n` in 1..5) exactly when the guard
`base - n ≥ audioNow + 0.02` holds in double arithmetic.  For an audio clock
from 0 to below `2 ^ 32` seconds, the time of go is within two microseconds of
`audioNow + msLeft / 1000`, and the cue `n` is scheduled whenever
`msLeft ≥ 1000 * n + 20.5` and never when `msLeft ≤ 1000 * n + 19.5`; so for every
call the announcement effect makes, the cue `5` is scheduled only if the call
was made with `msLeft > 5019.5`, and is scheduled if `msLeft ≥ 5020.5`. -/
theorem countdown_in_trigger_window :
    (∀ audioNow targetTs nowTs gainFactor : ℚ,
      600 < targetTs - nowTs → targetTs - nowTs ≤ 5200 →
        ({ buffer := some AudioBuffer.go
           timeSec := fadd audioNow (fdiv (fsub targetTs nowTs) 1000)
           gain := fmul gainFactor GO_GAIN_FACTOR } ∈
          scheduleCountdownToTarget
            { currentTime := some audioNow, countdownBuffers := some loadedBuffers }
            targetTs nowTs gainFactor) ∧
        (∀ e ∈ scheduleCountdownToTarget
            { currentTime := some audioNow, countdownBuffers := some loadedBuffers }
            targetTs nowTs gainFactor,
          e.buffer = some AudioBuffer.go →
            e.timeSec = fadd audioNow (fdiv (fsub targetTs nowTs) 1000)) ∧
        (∀ n : ℕ, n ∈ [1, 2, 3, 4, 5] →
          ((∃ e ∈ scheduleCountdownToTarget
              { currentTime := some audioNow, countdownBuffers := some loadedBuffers }
              targetTs nowTs gainFactor, e.buffer = some (AudioBuffer.countdown n)) ↔
            fsub (fadd audioNow (fdiv (fsub targetTs nowTs) 1000)) (n : ℚ) ≥
              fadd audioNow (roundDouble (2 / 100)))) ∧
        (0 ≤ audioNow → audioNow < 4294967296 →
          |fadd audioNow (fdiv (fsub targetTs nowTs) 1000) -
              (audioNow + (targetTs - nowTs) / 1000)| ≤ 2 / 1000000 ∧
          ∀ n : ℕ, n ∈ [1, 2, 3, 4, 5] →
            (targetTs - nowTs ≥ 1000 * (n : ℚ) + 20 + 1 / 2 →
              ∃ e ∈ scheduleCountdownToTarget
                { currentTime := some audioNow, countdownBuffers := some loadedBuffers }
                targetTs nowTs gainFactor, e.buffer = some (AudioBuffer.countdown n)) ∧
            (targetTs - nowTs ≤ 1000 * (n : ℚ) + 20 - 1 / 2 →
              ¬ ∃ e ∈ scheduleCountdownToTarget
                { currentTime := some audioNow, countdownBuffers := some loadedBuffers }
                targetTs nowTs gainFactor, e.buffer = some (AudioBuffer.countdown n)))) ∧
      (∀ (s : AnnounceSettings) (view : Option RallyView) (now : ℚ)
          (announced : List AnnouncementKey) (audioNow : ℚ),
        0 ≤ audioNow → audioNow < 4294967296 →
        ∀ c ∈ (announcementEffect s view now announced).cues,
          ((∃ e ∈ scheduleCountdownToTarget
              { currentTime := some audioNow, countdownBuffers := some loadedBuffers }
              c.targetTs c.nowTs c.gainFactor, e.buffer = some (AudioBuffer.countdown 5)) →
            c.targetTs - c.nowTs > 5020 - 1 / 2) ∧
          (c.targetTs - c.nowTs ≥ 5020 + 1 / 2 →
            ∃ e ∈ scheduleCountdownToTarget
              { currentTime := some audioNow, countdownBuffers := some loadedBuffers }
              c.targetTs c.nowTs c.gainFactor, e.buffer = some (AudioBuffer.countdown 5))) := by
  constructor
  · intro audioNow targetTs nowTs gainFactor hlo hhi
    obtain ⟨hmax, -, -, hcs⟩ := seconds_in_window targetTs nowTs hlo hhi
    obtain ⟨hgo1, hgo2⟩ := go_scheduled audioNow targetTs nowTs gainFactor
    rw [hmax] at hgo1 hgo2
    refine ⟨hgo1 ?_, hgo2, ?_, ?_⟩
    · exact roundDouble_mono (by linarith)
    · intro n hn
      have hn' : n ∈ [5, 4, 3, 2, 1] := by
        simp only [List.mem_cons, List.mem_singleton, List.not_mem_nil, or_false] at hn ⊢
        omega
      have hiff := (numbered_scheduled_iff audioNow targetTs nowTs gainFactor n hn').1
      rw [hmax] at hiff
      exact hiff
    · intro hA0 hA1
      refine ⟨(guard_close audioNow targetTs nowTs 0 (by omega) hlo hhi hA0 hA1).1, ?_⟩
      intro n hn
      exact numbered_scheduled_margin audioNow targetTs nowTs gainFactor n hn hlo hhi hA0 hA1
  · intro s view now announced audioNow hA0 hA1 c hc
    obtain ⟨v, r, -, -, -, -, -, hnow, -, hle, hgt⟩ := effect_cue_origin s view now announced c hc
    rw [← hnow] at hle hgt
    have hm := numbered_scheduled_margin audioNow c.targetTs c.nowTs c.gainFactor 5 (by simp)
      hgt hle hA0 hA1
    constructor
    · intro hex
      by_contra hnot
      refine hm.2 ?_ hex
      have h5 : ((5 : ℕ) : ℚ) = 5 := by norm_num
      rw [h5]
      linarith [not_lt.mp hnot]
    · intro hge
      apply hm.1
      have h5 : ((5 : ℕ) : ℚ) = 5 := by norm_num
      rw [h5]
      linarith

/-- C19 as amended, a run: the call is made 3000 ms before the target while the
audio clock reads 10 s: go is scheduled, the cue `2` is scheduled and the cue `3`
is not. -/
theorem countdown_in_trigger_window_witness :
    ({ buffer := some AudioBuffer.go
       timeSec := fadd 10 (fdiv (fsub 730000 727000) 1000)
       gain := fmul (1 / 2) GO_GAIN_FACTOR } ∈
        scheduleCountdownToTarget
          { currentTime := some 10, countdownBuffers := some loadedBuffers }
          730000 727000 (1 / 2)) ∧
      (∃ e ∈ scheduleCountdownToTarget
          { currentTime := some 10, countdownBuffers := some loadedBuffers }
          730000 727000 (1 / 2), e.buffer = some (AudioBuffer.countdown 2)) ∧
      ¬ ∃ e ∈ scheduleCountdownToTarget
          { currentTime := some 10, countdownBuffers := some loadedBuffers }
          730000 727000 (1 / 2), e.buffer = some (AudioBuffer.countdown 3) :=
  ⟨(countdown_in_trigger_window.1 10 730000 727000 (1 / 2) (by norm_num) (by norm_num)).1,
    (((countdown_in_trigger_window.1 10 730000 727000 (1 / 2) (by norm_num)
      (by norm_num)).2.2.2 (by norm_num) (by norm_num)).2 2 (by simp)).1 (by norm_num),
    (((countdown_in_trigger_window.1 10 730000 727000 (1 / 2) (by norm_num)
      (by norm_num)).2.2.2 (by norm_num) (by norm_num)).2 3 (by simp)).2 (by norm_num)⟩

end RallySync
